import Mathlib

/-!
Verification of the flight-delay analysis pipeline (scripts/data_processing.py).

The record table is modelled as a list of named columns of optional cells
(`none` models a pandas missing value, NaN/NaT/None).  Numeric data is
modelled with `Rat`; datetimes with an explicit year/month/day structure.
All functions are direct translations of the Python source; points where a
pandas library behaviour is abstracted are noted in doc comments.
-/

namespace FlightDelay

/-- A parsed datetime, as far as the pipeline observes it (pandas Timestamp
abstracted to its calendar date). -/
structure Dt where
  year : Int
  month : Int
  day : Int
deriving DecidableEq, Repr

/-- A cell payload: numeric (pandas int/float modelled as `Rat`), string, or
datetime. -/
inductive Value where
  | num : Rat → Value
  | str : String → Value
  | date : Dt → Value
deriving DecidableEq, Repr

/-- A cell: `none` is a pandas missing value (NaN/NaT). -/
abbrev Cell := Option Value

/-- One named column of a DataFrame. -/
structure Column where
  name : String
  values : List Cell
deriving DecidableEq, Repr

/-- A DataFrame: a row count (`len(df)`) and ordered named columns. -/
structure Table where
  nrows : Nat
  cols : List Column
deriving DecidableEq, Repr

/-- Column labels, in order. -/
def Table.names (t : Table) : List String := t.cols.map Column.name

/-- A well-formed DataFrame: every column has exactly `nrows` cells. -/
def Table.WF (t : Table) : Prop := ∀ c ∈ t.cols, c.values.length = t.nrows

instance (t : Table) : Decidable t.WF := List.decidableBAll _ t.cols

/-- Membership test `name in df.columns`. -/
def hasCol (t : Table) (n : String) : Bool := t.cols.any (fun c => c.name = n)

/-- Column access `df[n]` (first column with the label; the claims are
settled on tables whose labels are distinct, where this matches pandas). -/
def getColVals (t : Table) (n : String) : Option (List Cell) :=
  (t.cols.find? (fun c => c.name = n)).map Column.values

/-- Column assignment `df[n] = vs`: replace the values of every column
labelled `n`, or append a new column when the label is absent. -/
def setCol (t : Table) (n : String) (vs : List Cell) : Table :=
  if hasCol t n then
    { t with cols := t.cols.map (fun c => if c.name = n then { c with values := vs } else c) }
  else
    { t with cols := t.cols ++ [⟨n, vs⟩] }

/-- Relabelling `df.rename(columns={old: nu})`: every column labelled `old`
gets the label `nu`; values are untouched and no column is merged or
dropped (pandas permits the resulting duplicate labels). -/
def renameCol (t : Table) (old nu : String) : Table :=
  { t with cols := t.cols.map (fun c => if c.name = old then { c with name := nu } else c) }

/-- The `column_mapping` dict of `clean_flight_data`, in Python insertion
order. -/
def columnMapping : List (String × String) :=
  [("FlightDate", "FL_DATE"), ("FL_DATE", "FL_DATE"),
   ("Airline", "OP_CARRIER"), ("Reporting_Airline", "OP_CARRIER"),
   ("CARRIER", "OP_CARRIER"), ("OP_UNIQUE_CARRIER", "OP_CARRIER"),
   ("Origin", "ORIGIN"), ("ORIGIN", "ORIGIN"),
   ("Dest", "DEST"), ("DEST", "DEST"),
   ("DepDelay", "DEP_DELAY"), ("DEP_DELAY", "DEP_DELAY"),
   ("ArrDelay", "ARR_DELAY"), ("ARR_DELAY", "ARR_DELAY"),
   ("Cancelled", "CANCELLED"), ("CANCELLED", "CANCELLED"),
   ("Diverted", "DIVERTED"), ("DIVERTED", "DIVERTED"),
   ("CarrierDelay", "CARRIER_DELAY"), ("CARRIER_DELAY", "CARRIER_DELAY"),
   ("WeatherDelay", "WEATHER_DELAY"), ("WEATHER_DELAY", "WEATHER_DELAY"),
   ("NASDelay", "NAS_DELAY"), ("NAS_DELAY", "NAS_DELAY"),
   ("SecurityDelay", "SECURITY_DELAY"), ("SECURITY_DELAY", "SECURITY_DELAY"),
   ("LateAircraftDelay", "LATE_AIRCRAFT_DELAY"),
   ("LATE_AIRCRAFT_DELAY", "LATE_AIRCRAFT_DELAY")]

/-- The rename loop of `clean_flight_data`: apply each mapping in dict
order when the old label is present. -/
def renamePhase (t : Table) : Table :=
  columnMapping.foldl
    (fun acc p => if hasCol acc p.1 then renameCol acc p.1 p.2 else acc) t

/-- The label an input column carries after the rename loop. -/
def renName (s : String) : String :=
  columnMapping.foldl (fun n p => if n = p.1 then p.2 else n) s

/-- Substring test on character lists (`needle in haystack`). -/
def containsSub (needle : List Char) : List Char → Bool
  | [] => needle.isEmpty
  | a :: rest => needle.isPrefixOf (a :: rest) || containsSub needle rest

/-- ASCII lower-casing of one character (`str.lower()` on the ASCII labels
this pipeline sees). -/
def lowerChar (c : Char) : Char :=
  if 65 ≤ c.toNat ∧ c.toNat ≤ 90 then Char.ofNat (c.toNat + 32) else c

/-- The date-column heuristic `'date' in col.lower()`. -/
def lowerHasDate (s : String) : Bool :=
  containsSub "date".toList (s.toList.map lowerChar)

/-- Date-column detection: prefer `FL_DATE`, else the first column whose
lowered name contains `date`. -/
def findDateCol (t : Table) : Option String :=
  if hasCol t "FL_DATE" then some "FL_DATE"
  else (t.cols.find? (fun c => lowerHasDate c.name)).map Column.name

/-- Modelled from pandas: `pd.to_datetime` on an ISO `YYYY-MM-DD` string.
Other string shapes, and numeric cells (which pandas reads as epoch
offsets), are coerced to missing; no claim depends on those values. -/
def parseIsoDate (s : String) : Option Dt :=
  match s.splitOn "-" with
  | [a, b, c] =>
    match a.toInt?, b.toInt?, c.toInt? with
    | some y, some m, some d =>
      if 1 ≤ m ∧ m ≤ 12 ∧ 1 ≤ d ∧ d ≤ 31 then some ⟨y, m, d⟩ else none
    | _, _, _ => none
  | _ => none

/-- Cell-level `pd.to_datetime(-, errors='coerce')`: an already-parsed
datetime passes through unchanged, a string is parsed, anything else
becomes missing. -/
def parseDate : Value → Option Dt
  | .date d => some d
  | .str s => parseIsoDate s
  | .num _ => none

/-- `pd.to_datetime` over one cell. -/
def toDatetimeCell (c : Cell) : Cell := (c.bind parseDate).map Value.date

/-- Sakamoto's day-of-week algorithm shifted to pandas convention
(Monday = 0 .. Sunday = 6). -/
def dayOfWeek (x : Dt) : Int :=
  let tbl : List Int := [0, 3, 2, 5, 0, 3, 5, 1, 4, 6, 2, 4]
  let y := if x.month < 3 then x.year - 1 else x.year
  let idx := (x.month - 1).toNat % 12
  let sun := (y + y.fdiv 4 - y.fdiv 100 + y.fdiv 400 + tbl.getD idx 0 + x.day).emod 7
  (sun + 6).emod 7

/-- Extract a datetime attribute from a cell (`Series.dt.month` etc.);
missing datetimes give missing attributes (pandas NaN). -/
def cellDtAttr (f : Dt → Int) (c : Cell) : Cell :=
  match c with
  | some (.date x) => some (.num (f x))
  | _ => none

/-- The date-handling block of `clean_flight_data`: convert the detected
date column, then derive `MONTH`, `DAY_OF_WEEK`, `YEAR`. -/
def datePhase (t : Table) : Table :=
  match findDateCol t with
  | none => t
  | some dc =>
    let dv := ((getColVals t dc).getD []).map toDatetimeCell
    let t1 := setCol t dc dv
    let t2 := setCol t1 "MONTH" (dv.map (cellDtAttr Dt.month))
    let t3 := setCol t2 "DAY_OF_WEEK" (dv.map (cellDtAttr dayOfWeek))
    setCol t3 "YEAR" (dv.map (cellDtAttr Dt.year))

/-- The `delay_cols` list of `clean_flight_data`. -/
def delayCols : List String :=
  ["DEP_DELAY", "ARR_DELAY", "CARRIER_DELAY", "WEATHER_DELAY",
   "NAS_DELAY", "SECURITY_DELAY", "LATE_AIRCRAFT_DELAY"]

/-- `Series.fillna(0)` on one cell. -/
def fillCell (c : Cell) : Cell :=
  match c with
  | none => some (.num 0)
  | some v => some v

/-- One iteration of the imputation loop:
`if col in df.columns: df[col] = df[col].fillna(0)`. -/
def fillStep (acc : Table) (col : String) : Table :=
  if hasCol acc col then setCol acc col (((getColVals acc col).getD []).map fillCell)
  else acc

/-- The imputation loop: each delay column present gets its missing values
replaced by 0. -/
def fillPhase (t : Table) : Table := delayCols.foldl fillStep t

/-- Numeric strict comparison `cell > q`; a missing cell (or non-numeric
cell, which cannot reach the delay columns) compares false, as in pandas. -/
def cellGt (c : Cell) (q : Rat) : Bool :=
  match c with
  | some (.num x) => decide (q < x)
  | _ => false

/-- One cell of `(df['ARR_DELAY'] > 15).astype(int)`. -/
def flagCell (c : Cell) : Cell := some (.num (if cellGt c 15 then 1 else 0))

/-- The delay-flag block: derive `IS_DELAYED` when `ARR_DELAY` exists. -/
def flagPhase (t : Table) : Table :=
  if hasCol t "ARR_DELAY" then
    setCol t "IS_DELAYED" (((getColVals t "ARR_DELAY").getD []).map flagCell)
  else t

/-- `clean_flight_data`: rename, date handling, imputation, delay flag. -/
def clean_flight_data (t : Table) : Table :=
  flagPhase (fillPhase (datePhase (renamePhase t)))

/-- Extract the numeric content of a cell. -/
def cellNum : Cell → Option Rat
  | some (.num x) => some x
  | _ => none

/-- The numeric entries of a column, in order. -/
def numsOf (vs : List Cell) : List Rat := vs.filterMap cellNum

/-- `Series.sum()` (missing values skipped; empty sum is 0). -/
def colSum (vs : List Cell) : Rat := (numsOf vs).sum

/-- `Series.mean()` (missing values skipped; `none` models the NaN produced
on an all-missing column). -/
def colMean (vs : List Cell) : Option Rat :=
  let xs := numsOf vs
  if xs.length = 0 then none else some (xs.sum / (xs.length : Rat))

/-- `Series.max()` (missing values skipped; `none` models NaN). -/
def colMax (vs : List Cell) : Option Rat :=
  match numsOf vs with
  | [] => none
  | x :: xs => some (xs.foldl max x)

/-- `len(df[df[col] > q])`. -/
def countGt (vs : List Cell) (q : Rat) : Nat := vs.countP (fun c => cellGt c q)

/-- A Python runtime error escaping an aggregation function. -/
inductive PyErr where
  | zeroDiv : PyErr
  | keyErr : String → PyErr
deriving DecidableEq, Repr

/-- The `stats` dict of `get_delay_stats`; a `none` field is an absent key,
and the inner `Option` of `avg_delay`/`max_delay` models a NaN value. -/
structure Stats where
  total_flights : Option Nat
  delayed_flights : Option Nat
  delay_rate : Option Rat
  avg_delay : Option (Option Rat)
  max_delay : Option (Option Rat)
  cancelled_flights : Option Rat
  cancellation_rate : Option Rat
deriving DecidableEq, Repr

/-- `get_delay_stats`.  The two failure paths of the source are explicit:
`0/0` on an empty table with `ARR_DELAY` raises `ZeroDivisionError`, and
`stats['total_flights']` with `CANCELLED` but no `ARR_DELAY` raises
`KeyError`. -/
def get_delay_stats (t : Table) : Except PyErr Stats :=
  if hasCol t "ARR_DELAY" then
    let av := (getColVals t "ARR_DELAY").getD []
    let total := t.nrows
    let delayed := countGt av 15
    if total = 0 then .error .zeroDiv
    else
      let s : Stats :=
        ⟨some total, some delayed, some ((delayed : Rat) / (total : Rat) * 100),
         some (colMean av), some (colMax av), none, none⟩
      if hasCol t "CANCELLED" then
        let cv := (getColVals t "CANCELLED").getD []
        .ok { s with cancelled_flights := some (colSum cv),
                     cancellation_rate := some (colSum cv / (total : Rat) * 100) }
      else .ok s
  else if hasCol t "CANCELLED" then .error (.keyErr "total_flights")
  else .ok ⟨none, none, none, none, none, none, none⟩

/-- Lexicographic order on datetimes. -/
def dtLe (a b : Dt) : Prop :=
  a.year < b.year ∨ (a.year = b.year ∧
    (a.month < b.month ∨ (a.month = b.month ∧ a.day ≤ b.day)))

instance : DecidableRel dtLe := fun a b => by unfold dtLe; infer_instance

/-- Total order on cell payloads used for group-key sorting (`groupby`
sorts keys ascending); ranks separate the payload kinds, which do not mix
within one key column of this pipeline. -/
def Value.leB : Value → Value → Bool
  | .num x, .num y => decide (x ≤ y)
  | .num _, .str _ => true
  | .num _, .date _ => true
  | .str _, .num _ => false
  | .str x, .str y => decide (x ≤ y)
  | .str _, .date _ => true
  | .date _, .num _ => false
  | .date _, .str _ => false
  | .date x, .date y => decide (dtLe x y)

/-- The group-key order as a relation. -/
def vle (a b : Value) : Prop := Value.leB a b = true

instance : DecidableRel vle := fun a b => by unfold vle; infer_instance

instance : IsTotal Value vle := by
  constructor
  intro a b
  unfold vle Value.leB
  cases a <;> cases b <;> simp <;>
    first
      | exact le_total _ _
      | (unfold dtLe; omega)

instance : IsTrans Value vle := by
  constructor
  intro a b c hab hbc
  unfold vle Value.leB at *
  cases a <;> cases b <;> cases c <;> simp_all <;>
    first
      | exact le_trans hab hbc
      | (unfold dtLe at *; omega)

/-- The distinct non-missing keys of a key column, ascending — the group
index produced by `df.groupby(key)` (missing keys are dropped). -/
def sortedKeys (vs : List Cell) : List Value :=
  ((vs.filterMap id).dedup).insertionSort vle

/-- The cells of column `col` belonging to the group with key `k`. -/
def groupVals (keyVs colVs : List Cell) (k : Value) : List Cell :=
  ((keyVs.zip colVs).filter (fun p => p.1 = some k)).map Prod.snd

/-- Banker's rounding of a rational to an integer (the rounding of
`numpy.round`, modelled exactly on rationals). -/
def halfEven (q : Rat) : Int :=
  if q - (⌊q⌋ : Rat) < 1/2 then ⌊q⌋
  else if (1 : Rat)/2 < q - (⌊q⌋ : Rat) then ⌊q⌋ + 1
  else if ⌊q⌋ % 2 = 0 then ⌊q⌋ else ⌊q⌋ + 1

/-- `round(x, 2)` as applied by `.round(2)` on the aggregate frames. -/
def rnd2 (q : Rat) : Rat := (halfEven (q * 100) : Rat) / 100

/-- `.round(2)` through a possibly-NaN value. -/
def roundOpt (o : Option Rat) : Option Rat := o.map rnd2

/-- `Series.std()` reports the sample standard deviation; its square, the
sample variance (ddof = 1), is rational and is what the model carries —
`none` models the NaN on groups with fewer than two numeric cells.  No
claim concerns this field. -/
def colVarSq (vs : List Cell) : Option Rat :=
  let xs := numsOf vs
  if xs.length ≤ 1 then none
  else
    let n : Rat := (xs.length : Rat)
    let mu := xs.sum / n
    some (((xs.map (fun x => (x - mu) ^ 2)).sum) / (n - 1))

/-- One row of the `get_carrier_stats` output frame. -/
structure CarrierRow where
  key : Value
  total_flights : Nat
  avg_delay : Option Rat
  var_delay : Option Rat
  delay_rate : Option Rat
deriving DecidableEq, Repr

/-- Descending-count comparison used by
`sort_values('total_flights', ascending=False)`. -/
def carrierGe (a b : CarrierRow) : Prop := b.total_flights ≤ a.total_flights

instance : DecidableRel carrierGe := fun a b => by unfold carrierGe; infer_instance

instance : IsTotal CarrierRow carrierGe := ⟨fun a b => Nat.le_total b.total_flights a.total_flights⟩

instance : IsTrans CarrierRow carrierGe := ⟨fun _ _ _ hab hbc => le_trans hbc hab⟩

/-- `get_carrier_stats`.  `ok none` is the Python `None` returned when a
guard column is missing; aggregating the absent `IS_DELAYED` raises
`KeyError`.  The final sort is modelled with a stable sort; the source's
quicksort fixes no particular order among equal counts. -/
def get_carrier_stats (t : Table) : Except PyErr (Option (List CarrierRow)) :=
  if ¬ (hasCol t "OP_CARRIER" ∧ hasCol t "ARR_DELAY") then .ok none
  else if ¬ hasCol t "IS_DELAYED" then .error (.keyErr "IS_DELAYED")
  else
    let kv := (getColVals t "OP_CARRIER").getD []
    let av := (getColVals t "ARR_DELAY").getD []
    let iv := (getColVals t "IS_DELAYED").getD []
    let rows := (sortedKeys kv).map (fun k =>
      let ga := groupVals kv av k
      let gi := groupVals kv iv k
      ({ key := k
         total_flights := (ga.filterMap id).length
         avg_delay := roundOpt (colMean ga)
         var_delay := colVarSq ga
         delay_rate := (roundOpt (colMean gi)).map (· * 100) } : CarrierRow))
    .ok (some (rows.insertionSort carrierGe))

/-- One row of the `get_airport_stats` output frame. -/
structure AirportRow where
  key : Value
  total_flights : Nat
  avg_delay : Option Rat
deriving DecidableEq, Repr

/-- Descending-count comparison for airport rows. -/
def airportGe (a b : AirportRow) : Prop := b.total_flights ≤ a.total_flights

instance : DecidableRel airportGe := fun a b => by unfold airportGe; infer_instance

instance : IsTotal AirportRow airportGe := ⟨fun a b => Nat.le_total b.total_flights a.total_flights⟩

instance : IsTrans AirportRow airportGe := ⟨fun _ _ _ hab hbc => le_trans hbc hab⟩

/-- `get_airport_stats` (the `airport_col` parameter defaults to `ORIGIN`
at the call sites). -/
def get_airport_stats (t : Table) (airport_col : String) : Option (List AirportRow) :=
  if ¬ (hasCol t airport_col ∧ hasCol t "ARR_DELAY") then none
  else
    let kv := (getColVals t airport_col).getD []
    let av := (getColVals t "ARR_DELAY").getD []
    let rows := (sortedKeys kv).map (fun k =>
      let ga := groupVals kv av k
      ({ key := k
         total_flights := (ga.filterMap id).length
         avg_delay := roundOpt (colMean ga) } : AirportRow))
    some (rows.insertionSort airportGe)

/-- One row of the `get_monthly_stats` / `get_yearly_stats` output frames. -/
structure PeriodRow where
  key : Value
  total_flights : Nat
  avg_delay : Option Rat
  delay_rate : Option Rat
deriving DecidableEq, Repr

/-- Shared body of `get_monthly_stats` and `get_yearly_stats`: group by
`keyName`, aggregate, round, scale the rate; no re-sorting, so rows remain
in the ascending group-key order produced by `groupby`. -/
def periodStats (t : Table) (keyName : String) : Except PyErr (Option (List PeriodRow)) :=
  if ¬ (hasCol t keyName ∧ hasCol t "ARR_DELAY") then .ok none
  else if ¬ hasCol t "IS_DELAYED" then .error (.keyErr "IS_DELAYED")
  else
    let kv := (getColVals t keyName).getD []
    let av := (getColVals t "ARR_DELAY").getD []
    let iv := (getColVals t "IS_DELAYED").getD []
    .ok (some ((sortedKeys kv).map (fun k =>
      let ga := groupVals kv av k
      let gi := groupVals kv iv k
      ({ key := k
         total_flights := (ga.filterMap id).length
         avg_delay := roundOpt (colMean ga)
         delay_rate := (roundOpt (colMean gi)).map (· * 100) } : PeriodRow))))

/-- `get_monthly_stats`. -/
def get_monthly_stats (t : Table) : Except PyErr (Option (List PeriodRow)) :=
  periodStats t "MONTH"

/-- `get_yearly_stats`. -/
def get_yearly_stats (t : Table) : Except PyErr (Option (List PeriodRow)) :=
  periodStats t "YEAR"

/-- The `delay_cols` list of `get_delay_causes`. -/
def causeCols : List String :=
  ["CARRIER_DELAY", "WEATHER_DELAY", "NAS_DELAY", "SECURITY_DELAY", "LATE_AIRCRAFT_DELAY"]

/-- One value of the `causes` dict. -/
structure CauseStats where
  count : Nat
  total_minutes : Rat
  avg_minutes : Option Rat
deriving DecidableEq, Repr

/-- Left-to-right, non-overlapping replacement of a non-empty pattern in a
character list, with fuel for structural recursion (one unit per character
consumed, so the input length is always enough fuel). -/
def replaceFuel (pat rep : List Char) : Nat → List Char → List Char
  | 0, l => l
  | _ + 1, [] => []
  | fuel + 1, a :: rest =>
    if pat.isPrefixOf (a :: rest) ∧ pat ≠ [] then
      rep ++ replaceFuel pat rep fuel ((a :: rest).drop pat.length)
    else a :: replaceFuel pat rep fuel rest

/-- Python `s.replace(pat, rep)` for a non-empty pattern (the only use in
the source is stripping `_DELAY` from the cause column names). -/
def pyReplace (s pat rep : String) : String :=
  ⟨replaceFuel pat.toList rep.toList s.toList.length s.toList⟩

/-- One would-be entry of the `causes` dict: present exactly when the cause
column is present. -/
def causeEntry (t : Table) (col : String) : Option (String × CauseStats) :=
  (getColVals t col).map (fun vs =>
    let pos := vs.filter (fun c => cellGt c 0)
    (pyReplace col "_DELAY" "", ⟨pos.length, colSum pos, colMean pos⟩))

/-- `get_delay_causes`: for each cause column present, statistics of the
rows whose value in that column is strictly positive (`df[df[col] > 0]`).
The dict is modelled as an association list in insertion order. -/
def get_delay_causes (t : Table) : List (String × CauseStats) :=
  causeCols.foldl
    (fun acc col =>
      match getColVals t col with
      | none => acc
      | some vs =>
        let pos := vs.filter (fun c => cellGt c 0)
        acc ++ [(pyReplace col "_DELAY" "",
                 ⟨pos.length, colSum pos, colMean pos⟩)])
    []

/-! ### Basic lemmas about the table model -/

theorem hasCol_eq_true_iff {t : Table} {n : String} :
    hasCol t n = true ↔ n ∈ t.names := by
  unfold hasCol Table.names
  rw [List.any_eq_true]
  constructor
  · rintro ⟨c, hc, he⟩
    simp only [decide_eq_true_eq] at he
    exact List.mem_map.mpr ⟨c, hc, he⟩
  · intro h
    rcases List.mem_map.mp h with ⟨c, hc, he⟩
    exact ⟨c, hc, by simp [he]⟩

theorem hasCol_of_getColVals {t : Table} {n : String} {vs : List Cell}
    (h : getColVals t n = some vs) : hasCol t n = true := by
  unfold getColVals at h
  rcases Option.map_eq_some'.mp h with ⟨c, hc, -⟩
  have hmem := List.mem_of_find?_eq_some hc
  have hp := List.find?_some hc
  simp only [decide_eq_true_eq] at hp
  exact List.any_eq_true.mpr ⟨c, hmem, by simp [hp]⟩

theorem hasCol_false_iff {t : Table} {n : String} :
    hasCol t n = false ↔ ∀ c ∈ t.cols, c.name ≠ n := by
  unfold hasCol
  rw [List.any_eq_false]
  simp

theorem findCol_eq_none {l : List Column} {n : String} (h : ∀ c ∈ l, c.name ≠ n) :
    l.find? (fun c => c.name = n) = none :=
  List.find?_eq_none.mpr (fun c hc => by simp [h c hc])

theorem getColVals_of_hasCol {t : Table} {n : String} (h : hasCol t n = true) :
    ∃ vs, getColVals t n = some vs := by
  unfold hasCol at h
  rcases List.any_eq_true.mp h with ⟨c, hc, he⟩
  rcases hfind : t.cols.find? (fun c => c.name = n) with _ | c₀
  · have := List.find?_eq_none.mp hfind c hc
    simp_all
  · exact ⟨c₀.values, by simp [getColVals, hfind]⟩

theorem nrows_setCol (t : Table) (n : String) (vs : List Cell) :
    (setCol t n vs).nrows = t.nrows := by
  unfold setCol; split <;> rfl

theorem findCol_setList_self {n : String} {vs : List Cell} :
    ∀ l : List Column, (∃ c ∈ l, c.name = n) →
      (l.map (fun c => if c.name = n then { c with values := vs } else c)).find?
          (fun c => c.name = n) = some ⟨n, vs⟩
  | [], h => by simp at h
  | a :: l, h => by
    by_cases ha : a.name = n
    · simp [List.find?, ha]
    · have h' : ∃ c ∈ l, c.name = n := by
        rcases h with ⟨c, hc, he⟩
        rcases List.mem_cons.mp hc with rfl | hmem
        · exact absurd he ha
        · exact ⟨c, hmem, he⟩
      simpa [List.find?, ha] using findCol_setList_self l h'

theorem findCol_setList_ne {m n : String} {vs : List Cell} (hne : m ≠ n) :
    ∀ l : List Column,
      (l.map (fun c => if c.name = n then { c with values := vs } else c)).find?
          (fun c => c.name = m) = l.find? (fun c => c.name = m)
  | [] => rfl
  | a :: l => by
    simp only [List.map_cons, List.find?]
    by_cases ha : a.name = n
    · simp only [if_pos ha]
      have h1 : (decide (({ a with values := vs } : Column).name = m)) = false := by
        simp [ha, Ne.symm hne]
      have h2 : (decide (a.name = m)) = false := by simp [ha, Ne.symm hne]
      simp only [h1, h2]
      exact findCol_setList_ne hne l
    · simp only [if_neg ha]
      by_cases ham : a.name = m
      · simp [ham]
      · have h2 : (decide (a.name = m)) = false := by simp [ham]
        simp only [h2]
        exact findCol_setList_ne hne l

theorem getColVals_setCol_self (t : Table) (n : String) (vs : List Cell) :
    getColVals (setCol t n vs) n = some vs := by
  unfold setCol
  split
  · next h =>
    unfold hasCol at h
    rcases List.any_eq_true.mp h with ⟨c, hc, he⟩
    simp only [decide_eq_true_eq] at he
    unfold getColVals
    rw [findCol_setList_self t.cols ⟨c, hc, he⟩]
    rfl
  · next h =>
    have h' : hasCol t n = false := by
      rcases hb : hasCol t n with _ | _
      · rfl
      · exact absurd hb h
    unfold getColVals
    rw [List.find?_append, findCol_eq_none (hasCol_false_iff.mp h')]
    simp [List.find?]

theorem getColVals_setCol_ne {m n : String} (t : Table) (vs : List Cell) (hne : m ≠ n) :
    getColVals (setCol t n vs) m = getColVals t m := by
  unfold setCol
  split
  · unfold getColVals
    rw [findCol_setList_ne hne t.cols]
  · unfold getColVals
    rw [List.find?_append]
    have h2 : List.find? (fun c => c.name = m) [({ name := n, values := vs } : Column)]
        = none := by
      simp [List.find?, Ne.symm hne]
    rw [h2]
    cases List.find? (fun c => c.name = m) t.cols <;> simp

theorem hasCol_setCol_self (t : Table) (n : String) (vs : List Cell) :
    hasCol (setCol t n vs) n = true :=
  hasCol_of_getColVals (getColVals_setCol_self t n vs)

theorem hasCol_setCol_ne {m n : String} (t : Table) (vs : List Cell) (hne : m ≠ n) :
    hasCol (setCol t n vs) m = hasCol t m := by
  rcases hb : hasCol t m with _ | _
  · rw [hasCol_false_iff] at hb
    rw [hasCol_false_iff]
    intro c hc
    unfold setCol at hc
    split at hc
    · simp only [List.mem_map] at hc
      rcases hc with ⟨c₀, hc₀, he⟩
      subst he
      split
      · exact hb c₀ hc₀
      · exact hb c₀ hc₀
    · rcases List.mem_append.mp hc with hmem | hmem
      · exact hb c hmem
      · simp only [List.mem_singleton] at hmem
        rw [hmem]
        exact fun he => hne he.symm
  · rcases getColVals_of_hasCol hb with ⟨ws, hws⟩
    have : getColVals (setCol t n vs) m = some ws := by
      rw [getColVals_setCol_ne t vs hne]; exact hws
    exact hasCol_of_getColVals this

theorem names_setCol_exists (t : Table) (n : String) (vs : List Cell) :
    ∃ ext, (setCol t n vs).names = t.names ++ ext ∧ ∀ x ∈ ext, x = n := by
  unfold setCol
  split
  · refine ⟨[], ?_, by simp⟩
    simp only [Table.names, List.append_nil, List.map_map]
    apply List.map_congr_left
    intro c _
    by_cases hc : c.name = n <;> simp [hc]
  · exact ⟨[n], by simp [Table.names], by simp⟩

theorem names_nodup_setCol {t : Table} (n : String) (vs : List Cell)
    (h : t.names.Nodup) : (setCol t n vs).names.Nodup := by
  unfold setCol
  split
  · next hh =>
    have he : (t.cols.map (fun c => if c.name = n then { c with values := vs } else c)).map
        Column.name = t.cols.map Column.name := by
      rw [List.map_map]
      apply List.map_congr_left
      intro c _
      by_cases hc : c.name = n <;> simp [hc]
    simpa [Table.names, he] using h
  · next hh =>
    have hn : hasCol t n = false := by
      rcases hb : hasCol t n with _ | _
      · rfl
      · exact absurd hb hh
    rw [hasCol_false_iff] at hn
    simp only [Table.names, List.map_append, List.map_cons, List.map_nil]
    rw [List.nodup_append]
    refine ⟨h, List.nodup_singleton n, ?_⟩
    intro x hx
    rcases List.mem_map.mp hx with ⟨c, hc, he⟩
    simp only [List.mem_singleton]
    intro hxn
    exact hn c hc (by rw [he, hxn])

theorem unique_col_of_nodup {t : Table} (hnd : t.names.Nodup)
    {c₁ c₂ : Column} (h₁ : c₁ ∈ t.cols) (h₂ : c₂ ∈ t.cols)
    (he : c₁.name = c₂.name) : c₁ = c₂ :=
  List.inj_on_of_nodup_map hnd h₁ h₂ he

theorem setCol_eq_self {t : Table} {n : String} {vs : List Cell}
    (hnd : t.names.Nodup) (h : getColVals t n = some vs) : setCol t n vs = t := by
  have hh : hasCol t n = true := hasCol_of_getColVals h
  unfold getColVals at h
  rcases Option.map_eq_some'.mp h with ⟨c₀, hc₀, hval⟩
  have hc₀mem := List.mem_of_find?_eq_some hc₀
  have hc₀name : c₀.name = n := by simpa using List.find?_some hc₀
  unfold setCol
  rw [if_pos hh]
  have hmap : t.cols.map (fun c => if c.name = n then { c with values := vs } else c)
      = t.cols := by
    have hcg : ∀ c ∈ t.cols, (if c.name = n then { c with values := vs } else c) = c := by
      intro c hc
      split
      · next hcn =>
        have hcc : c = c₀ := unique_col_of_nodup hnd hc hc₀mem (by rw [hcn, hc₀name])
        rw [hcc, ← hval]
      · rfl
    rw [List.map_congr_left hcg]
    simp
  rw [hmap]

/-! ### The rename phase acts column-wise through `renName` -/

theorem renameCol_eq_of_not_has {t : Table} {old nu : String} (h : hasCol t old = false) :
    renameCol t old nu = t := by
  unfold renameCol
  rw [hasCol_false_iff] at h
  have hmap : t.cols.map (fun c => if c.name = old then { c with name := nu } else c)
      = t.cols := by
    have hcg : ∀ c ∈ t.cols, (if c.name = old then { c with name := nu } else c) = c := by
      intro c hc
      rw [if_neg (h c hc)]
    rw [List.map_congr_left hcg]
    simp
  rw [hmap]

theorem renameStep_eq (t : Table) (p : String × String) :
    (if hasCol t p.1 then renameCol t p.1 p.2 else t) = renameCol t p.1 p.2 := by
  split
  · rfl
  · next h =>
    have hf : hasCol t p.1 = false := by
      rcases hb : hasCol t p.1 with _ | _
      · rfl
      · exact absurd hb h
    rw [renameCol_eq_of_not_has hf]

theorem foldRename_eq (ms : List (String × String)) :
    ∀ t : Table,
      ms.foldl (fun acc p => if hasCol acc p.1 then renameCol acc p.1 p.2 else acc) t
        = ⟨t.nrows, t.cols.map (fun c =>
            ⟨ms.foldl (fun n p => if n = p.1 then p.2 else n) c.name, c.values⟩)⟩ := by
  induction ms with
  | nil =>
    intro t
    simp [List.foldl]
  | cons p ms ih =>
    intro t
    simp only [List.foldl]
    rw [renameStep_eq t p, ih]
    unfold renameCol
    congr 1
    rw [List.map_map]
    apply List.map_congr_left
    intro c _
    by_cases hc : c.name = p.1 <;> simp [hc]

theorem renamePhase_eq (t : Table) :
    renamePhase t = ⟨t.nrows, t.cols.map (fun c => ⟨renName c.name, c.values⟩)⟩ :=
  foldRename_eq columnMapping t

theorem names_renamePhase (t : Table) :
    (renamePhase t).names = t.names.map renName := by
  rw [renamePhase_eq]
  simp [Table.names, List.map_map]

theorem fold_rename_id {s : String} :
    ∀ ms : List (String × String), (∀ p ∈ ms, s ≠ p.1) →
      ms.foldl (fun n p => if n = p.1 then p.2 else n) s = s
  | [], _ => rfl
  | p :: ms, h => by
    simp only [List.foldl]
    rw [if_neg (h p (List.mem_cons_self p ms))]
    exact fold_rename_id ms (fun q hq => h q (List.mem_cons_of_mem p hq))

theorem renName_fix_of_not_key {s : String} (h : ∀ p ∈ columnMapping, s ≠ p.1) :
    renName s = s :=
  fold_rename_id columnMapping h

theorem renName_key : ∀ p ∈ columnMapping, renName p.1 = p.2 := by decide

theorem renName_target_fix : ∀ p ∈ columnMapping, renName p.2 = p.2 := by decide

theorem renName_idem (s : String) : renName (renName s) = renName s := by
  by_cases h : ∀ p ∈ columnMapping, s ≠ p.1
  · rw [renName_fix_of_not_key h, renName_fix_of_not_key h]
  · push_neg at h
    obtain ⟨p, hp, he⟩ := h
    rw [he, renName_key p hp, renName_target_fix p hp]

theorem renName_eq_isdelayed_iff (s : String) :
    renName s = "IS_DELAYED" ↔ s = "IS_DELAYED" := by
  by_cases h : ∀ p ∈ columnMapping, s ≠ p.1
  · rw [renName_fix_of_not_key h]
  · push_neg at h
    obtain ⟨p, hp, he⟩ := h
    rw [he, renName_key p hp]
    have h1 : ∀ q ∈ columnMapping, q.2 ≠ "IS_DELAYED" := by decide
    have h2 : ∀ q ∈ columnMapping, q.1 ≠ "IS_DELAYED" := by decide
    simp [h1 p hp, h2 p hp]

/-! ### Date, imputation and flag phase lemmas -/

theorem names_setCol_of_has {t : Table} {n : String} (vs : List Cell)
    (h : hasCol t n = true) : (setCol t n vs).names = t.names := by
  unfold setCol
  rw [if_pos h]
  simp only [Table.names, List.map_map]
  apply List.map_congr_left
  intro c _
  by_cases hc : c.name = n <;> simp [hc]

theorem findDateCol_spec {t : Table} {dc : String} (h : findDateCol t = some dc) :
    dc = "FL_DATE" ∨ lowerHasDate dc = true := by
  unfold findDateCol at h
  split at h
  · exact Or.inl (by simpa using h.symm)
  · rcases Option.map_eq_some'.mp h with ⟨c, hc, he⟩
    have := List.find?_some hc
    right
    rw [← he]
    simpa using this

theorem findDateCol_hasCol {t : Table} {dc : String} (h : findDateCol t = some dc) :
    hasCol t dc = true := by
  unfold findDateCol at h
  split at h
  · next hh =>
    obtain rfl : dc = "FL_DATE" := by simpa using h.symm
    exact hh
  · rcases Option.map_eq_some'.mp h with ⟨c, hc, he⟩
    have hmem := List.mem_of_find?_eq_some hc
    exact List.any_eq_true.mpr ⟨c, hmem, by simp [he]⟩

theorem dateCol_not_derived {t : Table} {dc : String} (h : findDateCol t = some dc) :
    dc ≠ "MONTH" ∧ dc ≠ "DAY_OF_WEEK" ∧ dc ≠ "YEAR" ∧
      dc ∉ delayCols ∧ dc ≠ "IS_DELAYED" := by
  rcases findDateCol_spec h with rfl | hd
  · refine ⟨by decide, by decide, by decide, by decide, by decide⟩
  · refine ⟨?_, ?_, ?_, ?_, ?_⟩ <;> intro he
    · rw [he] at hd; exact absurd hd (by decide)
    · rw [he] at hd; exact absurd hd (by decide)
    · rw [he] at hd; exact absurd hd (by decide)
    · have : ∀ x ∈ delayCols, lowerHasDate x = false := by decide
      rw [this dc he] at hd
      exact Bool.false_ne_true hd
    · rw [he] at hd; exact absurd hd (by decide)

theorem nrows_datePhase (t : Table) : (datePhase t).nrows = t.nrows := by
  unfold datePhase
  cases findDateCol t
  · rfl
  · simp only [nrows_setCol]

theorem names_datePhase_exists (t : Table) :
    ∃ ext, (datePhase t).names = t.names ++ ext ∧
      ∀ x ∈ ext, x ∈ ["MONTH", "DAY_OF_WEEK", "YEAR"] := by
  unfold datePhase
  rcases hfd : findDateCol t with _ | dc
  · exact ⟨[], by simp, by simp⟩
  · have h0 := names_setCol_of_has (t := t) (n := dc)
      (((getColVals t dc).getD []).map toDatetimeCell) (findDateCol_hasCol hfd)
    obtain ⟨e1, he1, hm1⟩ := names_setCol_exists (setCol t dc _) "MONTH" _
    obtain ⟨e2, he2, hm2⟩ := names_setCol_exists (setCol _ "MONTH" _) "DAY_OF_WEEK" _
    obtain ⟨e3, he3, hm3⟩ := names_setCol_exists (setCol _ "DAY_OF_WEEK" _) "YEAR" _
    refine ⟨e1 ++ e2 ++ e3, ?_, ?_⟩
    · rw [he3, he2, he1, h0]
      simp [List.append_assoc]
    · intro x hx
      rcases List.mem_append.mp hx with hx | hx
      · rcases List.mem_append.mp hx with hx | hx
        · simp [hm1 x hx]
        · simp [hm2 x hx]
      · simp [hm3 x hx]

theorem getColVals_datePhase_ne {t : Table} {m : String}
    (hm1 : m ≠ "MONTH") (hm2 : m ≠ "DAY_OF_WEEK") (hm3 : m ≠ "YEAR")
    (hm4 : m ≠ "FL_DATE") (hm5 : lowerHasDate m = false) :
    getColVals (datePhase t) m = getColVals t m := by
  unfold datePhase
  rcases hfd : findDateCol t with _ | dc
  · rfl
  · have hdc : m ≠ dc := by
      rcases findDateCol_spec hfd with rfl | hd
      · exact hm4
      · intro he; rw [← he] at hd; rw [hm5] at hd; exact Bool.false_ne_true hd
    rw [getColVals_setCol_ne _ _ hm3, getColVals_setCol_ne _ _ hm2,
      getColVals_setCol_ne _ _ hm1, getColVals_setCol_ne _ _ hdc]

theorem hasCol_datePhase_ne {t : Table} {m : String}
    (hm1 : m ≠ "MONTH") (hm2 : m ≠ "DAY_OF_WEEK") (hm3 : m ≠ "YEAR")
    (hm4 : m ≠ "FL_DATE") (hm5 : lowerHasDate m = false) :
    hasCol (datePhase t) m = hasCol t m := by
  unfold datePhase
  rcases hfd : findDateCol t with _ | dc
  · rfl
  · have hdc : m ≠ dc := by
      rcases findDateCol_spec hfd with rfl | hd
      · exact hm4
      · intro he; rw [← he] at hd; rw [hm5] at hd; exact Bool.false_ne_true hd
    rw [hasCol_setCol_ne _ _ hm3, hasCol_setCol_ne _ _ hm2,
      hasCol_setCol_ne _ _ hm1, hasCol_setCol_ne _ _ hdc]

theorem names_nodup_datePhase {t : Table} (h : t.names.Nodup) :
    (datePhase t).names.Nodup := by
  unfold datePhase
  rcases findDateCol t with _ | dc
  · exact h
  · exact names_nodup_setCol _ _ (names_nodup_setCol _ _
      (names_nodup_setCol _ _ (names_nodup_setCol _ _ h)))

theorem getColVals_fillStep_ne {m col : String} (acc : Table) (hne : m ≠ col) :
    getColVals (fillStep acc col) m = getColVals acc m := by
  unfold fillStep
  split
  · exact getColVals_setCol_ne _ _ hne
  · rfl

theorem names_fillStep (acc : Table) (col : String) :
    (fillStep acc col).names = acc.names := by
  unfold fillStep
  split
  · next h => exact names_setCol_of_has _ h
  · rfl

theorem nrows_fillStep (acc : Table) (col : String) :
    (fillStep acc col).nrows = acc.nrows := by
  unfold fillStep
  split
  · exact nrows_setCol _ _ _
  · rfl

theorem names_fillFold : ∀ (ms : List String) (t : Table),
    (ms.foldl fillStep t).names = t.names
  | [], _ => rfl
  | a :: ms, t => by
    simp only [List.foldl]
    rw [names_fillFold ms, names_fillStep]

theorem nrows_fillFold : ∀ (ms : List String) (t : Table),
    (ms.foldl fillStep t).nrows = t.nrows
  | [], _ => rfl
  | a :: ms, t => by
    simp only [List.foldl]
    rw [nrows_fillFold ms, nrows_fillStep]

theorem getColVals_fillFold_not_mem {m : String} :
    ∀ (ms : List String) (t : Table), (∀ x ∈ ms, m ≠ x) →
      getColVals (ms.foldl fillStep t) m = getColVals t m
  | [], _, _ => rfl
  | a :: ms, t, h => by
    simp only [List.foldl]
    rw [getColVals_fillFold_not_mem ms _ (fun x hx => h x (List.mem_cons_of_mem a hx)),
      getColVals_fillStep_ne t (h a (List.mem_cons_self a ms))]

theorem getColVals_fillFold_mem {m : String} {vs : List Cell} :
    ∀ (ms : List String) (t : Table), ms.Nodup → m ∈ ms →
      getColVals t m = some vs →
      getColVals (ms.foldl fillStep t) m = some (vs.map fillCell)
  | [], _, _, hm, _ => by simp at hm
  | a :: ms, t, hnd, hm, hv => by
    simp only [List.foldl]
    rcases List.mem_cons.mp hm with rfl | hmem
    · have hstep : fillStep t m = setCol t m (vs.map fillCell) := by
        unfold fillStep
        rw [if_pos (hasCol_of_getColVals hv), hv]
        rfl
      rw [hstep]
      have hnotin : ∀ x ∈ ms, m ≠ x := by
        intro x hx he
        rw [he] at hnd
        exact (List.nodup_cons.mp hnd).1 hx
      rw [getColVals_fillFold_not_mem ms _ hnotin]
      exact getColVals_setCol_self t m (vs.map fillCell)
    · have ha : m ≠ a := by
        intro he
        rw [← he] at hnd
        exact (List.nodup_cons.mp hnd).1 hmem
      exact getColVals_fillFold_mem ms _ (List.nodup_cons.mp hnd).2 hmem
        (by rw [getColVals_fillStep_ne t ha]; exact hv)

theorem fillFold_eq_self : ∀ (ms : List String) (t : Table), t.names.Nodup →
    (∀ m ∈ ms, ∀ vs, getColVals t m = some vs → vs.map fillCell = vs) →
    ms.foldl fillStep t = t
  | [], _, _, _ => rfl
  | a :: ms, t, hnd, h => by
    simp only [List.foldl]
    have hstep : fillStep t a = t := by
      unfold fillStep
      split
      · next hh =>
        rcases getColVals_of_hasCol hh with ⟨vs, hvs⟩
        rw [hvs]
        simp only [Option.getD_some]
        rw [h a (List.mem_cons_self a ms) vs hvs]
        exact setCol_eq_self hnd hvs
      · rfl
    rw [hstep]
    exact fillFold_eq_self ms t hnd (fun m hm => h m (List.mem_cons_of_mem a hm))

theorem fillCell_idem (c : Cell) : fillCell (fillCell c) = fillCell c := by
  cases c <;> rfl

theorem toDatetimeCell_idem (c : Cell) :
    toDatetimeCell (toDatetimeCell c) = toDatetimeCell c := by
  rcases c with _ | v
  · rfl
  · rcases hp : parseDate v with _ | x <;>
    · simp only [toDatetimeCell, Option.some_bind, hp]
      rfl

/-! ### Claim theorems -/

/-- C1.  For every well-formed table whose labels are distinct, with the
arrival-delay column present and at least one record, `get_delay_stats`
returns the total record count, the count of records with arrival delay
greater than 15, the delay rate delayed/total×100, the mean arrival delay
and the maximum arrival delay. -/
theorem c1_overall_stats (t : Table) (av : List Cell)
    (_hnd : t.names.Nodup) (_hwf : t.WF)
    (hav : getColVals t "ARR_DELAY" = some av) (hpos : 0 < t.nrows) :
    ∃ s, get_delay_stats t = .ok s ∧
      s.total_flights = some t.nrows ∧
      s.delayed_flights = some (countGt av 15) ∧
      s.delay_rate = some ((countGt av 15 : Rat) / (t.nrows : Rat) * 100) ∧
      s.avg_delay = some (colMean av) ∧
      s.max_delay = some (colMax av) := by
  have hA : hasCol t "ARR_DELAY" = true := hasCol_of_getColVals hav
  have hne : ¬ (t.nrows = 0) := by omega
  by_cases hc : hasCol t "CANCELLED" = true <;>
  · simp only [get_delay_stats, hA, hav, hne, hc, Option.getD_some, if_true, if_false,
      Bool.false_eq_true, reduceIte]
    exact ⟨_, rfl, rfl, rfl, rfl, rfl, rfl⟩

/-- C1 witness: the 4-record scenario with arrival delays [10, 20, −5, 16]
gives delayed count 2, delay rate 50.0 % and mean 10.25. -/
theorem c1_overall_stats_witness :
    ∃ s, get_delay_stats
        ⟨4, [⟨"ARR_DELAY", [some (.num 10), some (.num 20), some (.num (-5)), some (.num 16)]⟩]⟩
        = .ok s ∧
      s.total_flights = some 4 ∧ s.delayed_flights = some 2 ∧
      s.delay_rate = some 50 ∧ s.avg_delay = some (some (41/4)) ∧
      s.max_delay = some (some 20) := by
  obtain ⟨s, hok, h1, h2, h3, h4, h5⟩ :=
    c1_overall_stats
      ⟨4, [⟨"ARR_DELAY", [some (.num 10), some (.num 20), some (.num (-5)), some (.num 16)]⟩]⟩
      [some (.num 10), some (.num 20), some (.num (-5)), some (.num 16)]
      (by decide) (by decide) (by rfl) (by decide)
  refine ⟨s, hok, h1, ?_, ?_, ?_, ?_⟩
  · rw [h2]; norm_num [countGt, cellGt, List.countP, List.countP.go]
  · rw [h3]; norm_num [countGt, cellGt, List.countP, List.countP.go]
  · rw [h4]; norm_num [colMean, numsOf, cellNum, List.filterMap]
  · rw [h5]; norm_num [colMax, numsOf, cellNum, List.filterMap]

/-- C2.  The claim (from the spec) says an empty table must not produce a
division-by-zero crash.  The code divides `delayed/total` with
`total = len(df) = 0` whenever the `ARR_DELAY` column is present on a
zero-row table, raising `ZeroDivisionError`: the spec is the intent, the
code a slip.  This theorem evaluates the model at the failing input. -/
theorem c2_empty_table_zero_division :
    get_delay_stats ⟨0, [⟨"ARR_DELAY", []⟩]⟩ = .error .zeroDiv := rfl

/-- C5.  The claim says no combination of absent columns makes an
aggregation function raise.  With `CANCELLED` present and `ARR_DELAY`
absent, `get_delay_stats` reads `stats['total_flights']`, a key that was
never set, and raises `KeyError`: the spec's missing-column contract is
the intent, the code a slip. -/
theorem c5_missing_column_keyerror :
    get_delay_stats ⟨1, [⟨"CANCELLED", [some (.num 1)]⟩]⟩
      = .error (.keyErr "total_flights") := rfl

/-- C6.  The claim says cancellation stats are reported whenever a
cancellation column exists, including without the arrival-delay column;
on such a table the code raises `KeyError('total_flights')` instead of
returning the cancelled count 1 and rate 50 %. -/
theorem c6_cancellation_without_arr_delay :
    get_delay_stats ⟨2, [⟨"CANCELLED", [some (.num 1), some (.num 0)]⟩]⟩
      = .error (.keyErr "total_flights") := rfl

theorem hasCol_eq_of_names_eq {a b : Table} {m : String} (h : a.names = b.names) :
    hasCol a m = hasCol b m := by
  rw [Bool.eq_iff_iff, hasCol_eq_true_iff, hasCol_eq_true_iff, h]

theorem hasCol_fillFold (ms : List String) (t : Table) (m : String) :
    hasCol (ms.foldl fillStep t) m = hasCol t m :=
  hasCol_eq_of_names_eq (names_fillFold ms t)

theorem hasCol_clean_isdelayed_false {t : Table} (hIS : "IS_DELAYED" ∉ t.names) :
    hasCol (fillPhase (datePhase (renamePhase t))) "IS_DELAYED" = false := by
  rw [show fillPhase (datePhase (renamePhase t))
      = delayCols.foldl fillStep (datePhase (renamePhase t)) from rfl,
    hasCol_fillFold,
    hasCol_datePhase_ne (by decide) (by decide) (by decide) (by decide) (by decide)]
  rw [← Bool.not_eq_true, hasCol_eq_true_iff, names_renamePhase]
  intro hmem
  rcases List.mem_map.mp hmem with ⟨s, hs, he⟩
  rw [renName_eq_isdelayed_iff s] at he
  rw [he] at hs
  exact hIS hs

/-- C4.  After cleaning, whenever the arrival-delay column exists, the
derived `IS_DELAYED` flag exists and is 1 exactly on the records whose
arrival delay exceeds 15 and 0 otherwise; when the arrival-delay column is
absent the flag column is absent (the hypothesis excludes tables that
already carry a spurious `IS_DELAYED` input column, and the `Nodup`
hypothesis keeps the pandas column accesses single-valued). -/
theorem c4_delay_flag (t : Table)
    (_hnd : (t.names.map renName).Nodup)
    (hIS : "IS_DELAYED" ∉ t.names) :
    (∀ av : List Cell, getColVals (clean_flight_data t) "ARR_DELAY" = some av →
      ∃ iv : List Cell, getColVals (clean_flight_data t) "IS_DELAYED" = some iv ∧
        iv = av.map flagCell ∧
        ∀ (i : Nat) (x : Rat), av[i]? = some (some (.num x)) →
          ((iv[i]? = some (some (.num 1)) ↔ 15 < x) ∧
           (iv[i]? = some (some (.num 0)) ↔ ¬ 15 < x))) ∧
    (hasCol (clean_flight_data t) "ARR_DELAY" = false →
      hasCol (clean_flight_data t) "IS_DELAYED" = false) := by
  have hISw := hasCol_clean_isdelayed_false hIS
  constructor
  · intro av hav
    rcases hw : hasCol (fillPhase (datePhase (renamePhase t))) "ARR_DELAY" with _ | _
    · exfalso
      have hcl : clean_flight_data t = fillPhase (datePhase (renamePhase t)) := by
        unfold clean_flight_data flagPhase
        rw [hw]
        simp
      rw [hcl] at hav
      rw [hasCol_of_getColVals hav] at hw
      simp at hw
    · obtain ⟨wv, hwv⟩ := getColVals_of_hasCol hw
      have hcl : clean_flight_data t
          = setCol (fillPhase (datePhase (renamePhase t))) "IS_DELAYED"
              (wv.map flagCell) := by
        unfold clean_flight_data flagPhase
        rw [hw, if_pos rfl, hwv]
        rfl
      have harr : getColVals (clean_flight_data t) "ARR_DELAY" = some wv := by
        rw [hcl, getColVals_setCol_ne _ _ (by decide)]
        exact hwv
      have hweq : wv = av := by
        rw [harr] at hav
        exact Option.some.inj hav
      subst hweq
      refine ⟨wv.map flagCell, ?_, rfl, ?_⟩
      · rw [hcl]
        exact getColVals_setCol_self _ _ _
      · intro i x hx
        have hiv : (wv.map flagCell)[i]? = some (flagCell (some (.num x))) := by
          rw [List.getElem?_map, hx]
          rfl
        have hflag : flagCell (some (.num x)) = some (.num (if 15 < x then 1 else 0)) := by
          unfold flagCell cellGt
          by_cases hx15 : (15 : Rat) < x <;> simp [hx15]
        rw [hflag] at hiv
        by_cases hx15 : (15 : Rat) < x
        · rw [if_pos hx15] at hiv
          constructor
          · simp [hiv, hx15]
          · rw [hiv]
            simp only [Option.some.injEq, Value.num.injEq]
            constructor
            · intro h; exact absurd h (by norm_num)
            · intro h; exact absurd hx15 h
        · rw [if_neg hx15] at hiv
          constructor
          · rw [hiv]
            simp only [Option.some.injEq, Value.num.injEq]
            constructor
            · intro h; exact absurd h (by norm_num)
            · intro h; exact absurd h hx15
          · simp [hiv, hx15]
  · intro hA
    rcases hw : hasCol (fillPhase (datePhase (renamePhase t))) "ARR_DELAY" with _ | _
    · have hcl : clean_flight_data t = fillPhase (datePhase (renamePhase t)) := by
        unfold clean_flight_data flagPhase
        rw [hw]
        simp
      rw [hcl]
      exact hISw
    · exfalso
      have hcl : hasCol (clean_flight_data t) "ARR_DELAY" = true := by
        obtain ⟨wv, hwv⟩ := getColVals_of_hasCol hw
        have : clean_flight_data t
            = setCol (fillPhase (datePhase (renamePhase t))) "IS_DELAYED"
                (wv.map flagCell) := by
          unfold clean_flight_data flagPhase
          rw [hw, if_pos rfl, hwv]
          rfl
        rw [this, hasCol_setCol_ne _ _ (by decide)]
        exact hw
      rw [hcl] at hA
      simp at hA

set_option maxRecDepth 8000 in
/-- C4 witness: a two-record table with arrival delays 20 and 3 gets flags
1 and 0. -/
theorem c4_delay_flag_witness :
    ∃ iv, getColVals
        (clean_flight_data ⟨2, [⟨"ARR_DELAY", [some (.num 20), some (.num 3)]⟩]⟩)
        "IS_DELAYED" = some iv ∧
      iv = [some (.num 20), some (.num 3)].map flagCell ∧
      (iv[0]? = some (some (.num 1)) ↔ (15 : Rat) < 20) ∧
      (iv[1]? = some (some (.num 0)) ↔ ¬ (15 : Rat) < 3) := by
  obtain ⟨h1, -⟩ :=
    c4_delay_flag ⟨2, [⟨"ARR_DELAY", [some (.num 20), some (.num 3)]⟩]⟩
      (by decide) (by decide)
  obtain ⟨iv, hiv, hmap, hpt⟩ := h1 [some (.num 20), some (.num 3)] (by rfl)
  obtain ⟨ha, -⟩ := hpt 0 20 (by rfl)
  obtain ⟨-, hb⟩ := hpt 1 3 (by rfl)
  exact ⟨iv, hiv, hmap, ha, hb⟩

theorem sorted_sortedKeys (vs : List Cell) : List.Sorted vle (sortedKeys vs) :=
  List.sorted_insertionSort vle _

theorem periodStats_keys_sorted {t : Table} {kn : String} {rm : List PeriodRow}
    (hm : periodStats t kn = .ok (some rm)) :
    List.Sorted vle (rm.map PeriodRow.key) := by
  unfold periodStats at hm
  split at hm
  · simp at hm
  · split at hm
    · simp at hm
    · simp only [Except.ok.injEq, Option.some.injEq] at hm
      have he : rm.map PeriodRow.key = sortedKeys ((getColVals t kn).getD []) := by
        rw [← hm, List.map_map]
        exact List.map_id'' (fun x => rfl) _
      rw [he]
      exact sorted_sortedKeys _

/-- C7 counterexample: `get_monthly_stats` performs no count sort; on a
table where month 1 has one flight and month 2 has two, the output rows
carry counts [1, 2], which is not descending. -/
theorem c7_order_counterexample :
    get_monthly_stats ⟨3, [
        ⟨"MONTH", [some (.num 2), some (.num 1), some (.num 2)]⟩,
        ⟨"ARR_DELAY", [some (.num 16), some (.num 20), some (.num 10)]⟩,
        ⟨"IS_DELAYED", [some (.num 1), some (.num 1), some (.num 0)]⟩]⟩
      = .ok (some [⟨.num 1, 1, some 20, some 100⟩, ⟨.num 2, 2, some 13, some 50⟩]) ∧
    ¬ List.Sorted (fun a b : PeriodRow => b.total_flights ≤ a.total_flights)
        [⟨.num 1, 1, some 20, some 100⟩, ⟨.num 2, 2, some 13, some 50⟩] := by
  constructor
  · norm_num [get_monthly_stats, periodStats, hasCol, getColVals, sortedKeys, groupVals,
      List.find?, List.dedup, List.insertionSort, List.orderedInsert, vle, Value.leB,
      roundOpt, rnd2, halfEven, colMean, numsOf, cellNum, List.filterMap, List.filter,
      List.zip, List.zipWith, List.countP, cellGt]
  · intro h
    have := (List.sorted_cons.mp h).1 ⟨.num 2, 2, some 13, some 50⟩ (by simp)
    simp at this

/-- C7 (amended).  Carrier and airport grouped statistics are ordered by
descending flight count; monthly and yearly grouped statistics are not
count-sorted — their rows stay in ascending group-key order as produced by
`groupby`.  (The source's quicksort guarantees no particular order among
equal counts, so only the count ordering itself is asserted.) -/
theorem c7_grouped_order_amended (t : Table)
    (rc : List CarrierRow) (ro rd : List AirportRow) (rm ry : List PeriodRow)
    (hc : get_carrier_stats t = .ok (some rc))
    (ho : get_airport_stats t "ORIGIN" = some ro)
    (hd : get_airport_stats t "DEST" = some rd)
    (hm : get_monthly_stats t = .ok (some rm))
    (hy : get_yearly_stats t = .ok (some ry)) :
    List.Sorted carrierGe rc ∧ List.Sorted airportGe ro ∧ List.Sorted airportGe rd ∧
      List.Sorted vle (rm.map PeriodRow.key) ∧
      List.Sorted vle (ry.map PeriodRow.key) := by
  refine ⟨?_, ?_, ?_, ?_, ?_⟩
  · unfold get_carrier_stats at hc
    split at hc
    · simp at hc
    · split at hc
      · simp at hc
      · simp only [Except.ok.injEq, Option.some.injEq] at hc
        rw [← hc]
        exact List.sorted_insertionSort carrierGe _
  · unfold get_airport_stats at ho
    split at ho
    · simp at ho
    · simp only [Option.some.injEq] at ho
      rw [← ho]
      exact List.sorted_insertionSort airportGe _
  · unfold get_airport_stats at hd
    split at hd
    · simp at hd
    · simp only [Option.some.injEq] at hd
      rw [← hd]
      exact List.sorted_insertionSort airportGe _
  · exact periodStats_keys_sorted hm
  · exact periodStats_keys_sorted hy

/-- C7 witness: on a one-row table carrying all five grouping columns, all
five grouped outputs satisfy the asserted orderings. -/
theorem c7_grouped_order_witness :
    List.Sorted carrierGe [(⟨.str "AA", 1, some 20, none, some 100⟩ : CarrierRow)] ∧
    List.Sorted airportGe [(⟨.str "JFK", 1, some 20⟩ : AirportRow)] ∧
    List.Sorted airportGe [(⟨.str "LAX", 1, some 20⟩ : AirportRow)] ∧
    List.Sorted vle ([(⟨.num 1, 1, some 20, some 100⟩ : PeriodRow)].map PeriodRow.key) ∧
    List.Sorted vle ([(⟨.num 2020, 1, some 20, some 100⟩ : PeriodRow)].map PeriodRow.key) := by
  have hc : get_carrier_stats ⟨1, [⟨"OP_CARRIER", [some (.str "AA")]⟩,
      ⟨"ORIGIN", [some (.str "JFK")]⟩, ⟨"DEST", [some (.str "LAX")]⟩,
      ⟨"MONTH", [some (.num 1)]⟩, ⟨"YEAR", [some (.num 2020)]⟩,
      ⟨"ARR_DELAY", [some (.num 20)]⟩, ⟨"IS_DELAYED", [some (.num 1)]⟩]⟩
      = .ok (some [⟨.str "AA", 1, some 20, none, some 100⟩]) := by
    norm_num [get_carrier_stats, hasCol, getColVals, sortedKeys, groupVals,
      List.find?, List.dedup, List.insertionSort, List.orderedInsert, vle, Value.leB,
      roundOpt, rnd2, halfEven, colMean, colVarSq, numsOf, cellNum, List.filterMap,
      List.filter, List.zip, List.zipWith, List.countP, cellGt, carrierGe]
  have ho : get_airport_stats ⟨1, [⟨"OP_CARRIER", [some (.str "AA")]⟩,
      ⟨"ORIGIN", [some (.str "JFK")]⟩, ⟨"DEST", [some (.str "LAX")]⟩,
      ⟨"MONTH", [some (.num 1)]⟩, ⟨"YEAR", [some (.num 2020)]⟩,
      ⟨"ARR_DELAY", [some (.num 20)]⟩, ⟨"IS_DELAYED", [some (.num 1)]⟩]⟩ "ORIGIN"
      = some [⟨.str "JFK", 1, some 20⟩] := by
    norm_num [get_airport_stats, hasCol, getColVals, sortedKeys, groupVals,
      List.find?, List.dedup, List.insertionSort, List.orderedInsert, vle, Value.leB,
      roundOpt, rnd2, halfEven, colMean, numsOf, cellNum, List.filterMap,
      List.filter, List.zip, List.zipWith, List.countP, cellGt, airportGe]
  have hd : get_airport_stats ⟨1, [⟨"OP_CARRIER", [some (.str "AA")]⟩,
      ⟨"ORIGIN", [some (.str "JFK")]⟩, ⟨"DEST", [some (.str "LAX")]⟩,
      ⟨"MONTH", [some (.num 1)]⟩, ⟨"YEAR", [some (.num 2020)]⟩,
      ⟨"ARR_DELAY", [some (.num 20)]⟩, ⟨"IS_DELAYED", [some (.num 1)]⟩]⟩ "DEST"
      = some [⟨.str "LAX", 1, some 20⟩] := by
    norm_num [get_airport_stats, hasCol, getColVals, sortedKeys, groupVals,
      List.find?, List.dedup, List.insertionSort, List.orderedInsert, vle, Value.leB,
      roundOpt, rnd2, halfEven, colMean, numsOf, cellNum, List.filterMap,
      List.filter, List.zip, List.zipWith, List.countP, cellGt, airportGe]
  have hmm : get_monthly_stats ⟨1, [⟨"OP_CARRIER", [some (.str "AA")]⟩,
      ⟨"ORIGIN", [some (.str "JFK")]⟩, ⟨"DEST", [some (.str "LAX")]⟩,
      ⟨"MONTH", [some (.num 1)]⟩, ⟨"YEAR", [some (.num 2020)]⟩,
      ⟨"ARR_DELAY", [some (.num 20)]⟩, ⟨"IS_DELAYED", [some (.num 1)]⟩]⟩
      = .ok (some [⟨.num 1, 1, some 20, some 100⟩]) := by
    norm_num [get_monthly_stats, periodStats, hasCol, getColVals, sortedKeys, groupVals,
      List.find?, List.dedup, List.insertionSort, List.orderedInsert, vle, Value.leB,
      roundOpt, rnd2, halfEven, colMean, numsOf, cellNum, List.filterMap,
      List.filter, List.zip, List.zipWith, List.countP, cellGt]
  have hyy : get_yearly_stats ⟨1, [⟨"OP_CARRIER", [some (.str "AA")]⟩,
      ⟨"ORIGIN", [some (.str "JFK")]⟩, ⟨"DEST", [some (.str "LAX")]⟩,
      ⟨"MONTH", [some (.num 1)]⟩, ⟨"YEAR", [some (.num 2020)]⟩,
      ⟨"ARR_DELAY", [some (.num 20)]⟩, ⟨"IS_DELAYED", [some (.num 1)]⟩]⟩
      = .ok (some [⟨.num 2020, 1, some 20, some 100⟩]) := by
    norm_num [get_yearly_stats, periodStats, hasCol, getColVals, sortedKeys, groupVals,
      List.find?, List.dedup, List.insertionSort, List.orderedInsert, vle, Value.leB,
      roundOpt, rnd2, halfEven, colMean, numsOf, cellNum, List.filterMap,
      List.filter, List.zip, List.zipWith, List.countP, cellGt]
  exact c7_grouped_order_amended _ _ _ _ _ _ hc ho hd hmm hyy

theorem rnd2_mul_hundred (x : Rat) : rnd2 x * 100 = ((halfEven (x * 100) : Int) : Rat) := by
  unfold rnd2
  rw [div_mul_cancel₀]
  norm_num

theorem rate_whole {o : Option Rat} {q : Rat}
    (h : ((roundOpt o).map (· * 100)) = some q) : ∃ k : Int, q = (k : Rat) := by
  rcases o with _ | m
  · simp [roundOpt] at h
  · simp only [roundOpt, Option.map_some'] at h
    have hq : rnd2 m * 100 = q := Option.some.inj h
    exact ⟨halfEven (m * 100), by rw [← hq, rnd2_mul_hundred]⟩

theorem periodStats_rate_whole {t : Table} {kn : String} {rm : List PeriodRow}
    (hm : periodStats t kn = .ok (some rm)) :
    ∀ r ∈ rm, ∀ q : Rat, r.delay_rate = some q → ∃ k : Int, q = (k : Rat) := by
  unfold periodStats at hm
  split at hm
  · simp at hm
  · split at hm
    · simp at hm
    · simp only [Except.ok.injEq, Option.some.injEq] at hm
      subst hm
      intro r hr q hq
      rcases List.mem_map.mp hr with ⟨k, hk, rfl⟩
      exact rate_whole hq

theorem carrier_rate_whole {t : Table} {rc : List CarrierRow}
    (hc : get_carrier_stats t = .ok (some rc)) :
    ∀ r ∈ rc, ∀ q : Rat, r.delay_rate = some q → ∃ k : Int, q = (k : Rat) := by
  unfold get_carrier_stats at hc
  split at hc
  · simp at hc
  · split at hc
    · simp at hc
    · simp only [Except.ok.injEq, Option.some.injEq] at hc
      subst hc
      intro r hr q hq
      rw [List.mem_insertionSort] at hr
      rcases List.mem_map.mp hr with ⟨k, hk, rfl⟩
      exact rate_whole hq

/-- C10.  In the carrier, monthly and yearly grouped statistics, the delay
rate is the group mean of the delay flag rounded to 2 decimals and only
then multiplied by 100, so every reported delay rate is a whole-number
percentage: an integer multiple of 1.0. -/
theorem c10_delay_rate_whole (t : Table)
    (rc : List CarrierRow) (rm ry : List PeriodRow)
    (hc : get_carrier_stats t = .ok (some rc))
    (hm : get_monthly_stats t = .ok (some rm))
    (hy : get_yearly_stats t = .ok (some ry)) :
    (∀ r ∈ rc, ∀ q : Rat, r.delay_rate = some q → ∃ k : Int, q = (k : Rat)) ∧
    (∀ r ∈ rm, ∀ q : Rat, r.delay_rate = some q → ∃ k : Int, q = (k : Rat)) ∧
    (∀ r ∈ ry, ∀ q : Rat, r.delay_rate = some q → ∃ k : Int, q = (k : Rat)) :=
  ⟨carrier_rate_whole hc, periodStats_rate_whole hm, periodStats_rate_whole hy⟩

/-- C10 witness: three flights of one carrier with one delayed — the true
rate is 33.33…%, the reported rate is the whole number 33.0. -/
theorem c10_delay_rate_whole_witness :
    ∃ rc : List CarrierRow, get_carrier_stats ⟨3, [
        ⟨"OP_CARRIER", [some (.str "AA"), some (.str "AA"), some (.str "AA")]⟩,
        ⟨"ARR_DELAY", [some (.num 16), some (.num 2), some (.num 10)]⟩,
        ⟨"IS_DELAYED", [some (.num 1), some (.num 0), some (.num 0)]⟩,
        ⟨"MONTH", [some (.num 1), some (.num 1), some (.num 1)]⟩,
        ⟨"YEAR", [some (.num 2020), some (.num 2020), some (.num 2020)]⟩]⟩
      = .ok (some rc) ∧
      rc = [⟨.str "AA", 3, some (933/100), some (148/3), some 33⟩] ∧
      ∀ r ∈ rc, ∀ q : Rat, r.delay_rate = some q → ∃ k : Int, q = (k : Rat) := by
  have h1 : get_carrier_stats ⟨3, [
      ⟨"OP_CARRIER", [some (.str "AA"), some (.str "AA"), some (.str "AA")]⟩,
      ⟨"ARR_DELAY", [some (.num 16), some (.num 2), some (.num 10)]⟩,
      ⟨"IS_DELAYED", [some (.num 1), some (.num 0), some (.num 0)]⟩,
      ⟨"MONTH", [some (.num 1), some (.num 1), some (.num 1)]⟩,
      ⟨"YEAR", [some (.num 2020), some (.num 2020), some (.num 2020)]⟩]⟩
      = .ok (some [⟨.str "AA", 3, some (933/100), some (148/3), some 33⟩]) := by
    norm_num [get_carrier_stats, hasCol, getColVals, sortedKeys, groupVals,
      List.find?, List.dedup, List.insertionSort, List.orderedInsert, vle, Value.leB,
      roundOpt, rnd2, halfEven, colMean, colVarSq, numsOf, cellNum, List.filterMap,
      List.filter, List.zip, List.zipWith, List.countP, cellGt, carrierGe]
  have h2 : get_monthly_stats ⟨3, [
      ⟨"OP_CARRIER", [some (.str "AA"), some (.str "AA"), some (.str "AA")]⟩,
      ⟨"ARR_DELAY", [some (.num 16), some (.num 2), some (.num 10)]⟩,
      ⟨"IS_DELAYED", [some (.num 1), some (.num 0), some (.num 0)]⟩,
      ⟨"MONTH", [some (.num 1), some (.num 1), some (.num 1)]⟩,
      ⟨"YEAR", [some (.num 2020), some (.num 2020), some (.num 2020)]⟩]⟩
      = .ok (some [⟨.num 1, 3, some (933/100), some 33⟩]) := by
    norm_num [get_monthly_stats, periodStats, hasCol, getColVals, sortedKeys, groupVals,
      List.find?, List.dedup, List.insertionSort, List.orderedInsert, vle, Value.leB,
      roundOpt, rnd2, halfEven, colMean, numsOf, cellNum, List.filterMap,
      List.filter, List.zip, List.zipWith, List.countP, cellGt]
  have h3 : get_yearly_stats ⟨3, [
      ⟨"OP_CARRIER", [some (.str "AA"), some (.str "AA"), some (.str "AA")]⟩,
      ⟨"ARR_DELAY", [some (.num 16), some (.num 2), some (.num 10)]⟩,
      ⟨"IS_DELAYED", [some (.num 1), some (.num 0), some (.num 0)]⟩,
      ⟨"MONTH", [some (.num 1), some (.num 1), some (.num 1)]⟩,
      ⟨"YEAR", [some (.num 2020), some (.num 2020), some (.num 2020)]⟩]⟩
      = .ok (some [⟨.num 2020, 3, some (933/100), some 33⟩]) := by
    norm_num [get_yearly_stats, periodStats, hasCol, getColVals, sortedKeys, groupVals,
      List.find?, List.dedup, List.insertionSort, List.orderedInsert, vle, Value.leB,
      roundOpt, rnd2, halfEven, colMean, numsOf, cellNum, List.filterMap,
      List.filter, List.zip, List.zipWith, List.countP, cellGt]
  obtain ⟨ha, -, -⟩ := c10_delay_rate_whole _ _ _ _ h1 h2 h3
  exact ⟨_, h1, rfl, ha⟩

theorem causes_fold_aux (t : Table) :
    ∀ (ms : List String) (acc : List (String × CauseStats)),
      ms.foldl
        (fun acc col =>
          match getColVals t col with
          | none => acc
          | some vs =>
            let pos := vs.filter (fun c => cellGt c 0)
            acc ++ [(pyReplace col "_DELAY" "",
                     ⟨pos.length, colSum pos, colMean pos⟩)])
        acc
      = acc ++ ms.filterMap (causeEntry t)
  | [], acc => by simp
  | col :: ms, acc => by
    simp only [List.foldl, List.filterMap_cons]
    rcases h : getColVals t col with _ | vs
    · rw [causes_fold_aux t ms acc]
      simp [causeEntry, h]
    · rw [causes_fold_aux t ms _]
      simp [causeEntry, h, List.append_assoc]

theorem get_delay_causes_eq (t : Table) :
    get_delay_causes t = causeCols.filterMap (causeEntry t) := by
  unfold get_delay_causes
  rw [causes_fold_aux t causeCols []]
  rfl

theorem lookup_append_of_ne {l₁ l₂ : List (String × CauseStats)} {k : String}
    (h : ∀ p ∈ l₁, p.1 ≠ k) : (l₁ ++ l₂).lookup k = l₂.lookup k := by
  induction l₁ with
  | nil => rfl
  | cons p l ih =>
    obtain ⟨kp, vp⟩ := p
    have hne : kp ≠ k := h (kp, vp) (List.mem_cons_self _ _)
    simp only [List.cons_append, List.lookup]
    rw [show (k == kp) = false from beq_eq_false_iff_ne.mpr (Ne.symm hne)]
    exact ih (fun q hq => h q (List.mem_cons_of_mem _ hq))

theorem causes_prefix_keys_ne {t : Table} {key : String} {pre : List String}
    (hk : ∀ c ∈ pre, pyReplace c "_DELAY" "" ≠ key) :
    ∀ p ∈ pre.filterMap (causeEntry t), p.1 ≠ key := by
  intro p hp
  rcases List.mem_filterMap.mp hp with ⟨c, hc, hfc⟩
  unfold causeEntry at hfc
  rcases hg : getColVals t c with _ | ws
  · rw [hg] at hfc
    simp at hfc
  · rw [hg] at hfc
    simp only [Option.map_some'] at hfc
    have hp2 := Option.some.inj hfc
    rw [← hp2]
    exact hk c hc

theorem numsOf_length_of_pos {vs : List Cell}
    (h : ∀ c ∈ vs, cellGt c 0 = true) : (numsOf vs).length = vs.length := by
  induction vs with
  | nil => rfl
  | cons a l ih =>
    have ha := h a (List.mem_cons_self a l)
    rcases a with _ | v
    · simp [cellGt] at ha
    · rcases v with x | s | d
      · simp only [numsOf, List.filterMap_cons, cellNum, List.length_cons]
        have hl := ih (fun c hc => h c (List.mem_cons_of_mem _ hc))
        unfold numsOf at hl
        omega
      · simp [cellGt] at ha
      · simp [cellGt] at ha

theorem colMean_of_all_pos {vs : List Cell}
    (h : ∀ c ∈ vs, cellGt c 0 = true) (hne : vs.length ≠ 0) :
    colMean vs = some (colSum vs / (vs.length : Rat)) := by
  have hlen := numsOf_length_of_pos h
  simp only [colMean, colSum]
  rw [hlen, if_neg hne]

/-- C8.  For each of the five delay-cause columns present, the reported
count is the number of records with a strictly positive value, the total
is the sum of the minutes over those records, and the mean is total/count
over that positive subset only — never the mean over all rows.  The
`Nodup` hypothesis keeps the pandas column accesses single-valued: with
duplicate labels `df[df[col] > 0]` is a where-mask with different
semantics. -/
theorem c8_delay_causes (t : Table) (col : String) (vs : List Cell)
    (_hnd : t.names.Nodup)
    (hmem : col ∈ causeCols) (hvs : getColVals t col = some vs) :
    ∃ cs : CauseStats,
      (get_delay_causes t).lookup (pyReplace col "_DELAY" "") = some cs ∧
      cs.count = (vs.filter (fun c => cellGt c 0)).length ∧
      cs.total_minutes = colSum (vs.filter (fun c => cellGt c 0)) ∧
      (0 < cs.count → cs.avg_minutes
        = some (cs.total_minutes / (cs.count : Rat))) := by
  have hmean : ∀ cs : CauseStats,
      cs = ⟨(vs.filter (fun c => cellGt c 0)).length,
            colSum (vs.filter (fun c => cellGt c 0)),
            colMean (vs.filter (fun c => cellGt c 0))⟩ →
      0 < cs.count → cs.avg_minutes = some (cs.total_minutes / (cs.count : Rat)) := by
    rintro cs rfl hpos
    have hpos2 : 0 < (vs.filter (fun c => cellGt c 0)).length := hpos
    have hall : ∀ c ∈ vs.filter (fun c => cellGt c 0), cellGt c 0 = true := by
      intro c hc
      exact (List.mem_filter.mp hc).2
    exact colMean_of_all_pos hall (by omega)
  rw [get_delay_causes_eq]
  simp only [causeCols, List.mem_cons, List.not_mem_nil, or_false] at hmem
  rcases hmem with rfl | rfl | rfl | rfl | rfl
  · rw [show causeCols = "CARRIER_DELAY"
        :: ["WEATHER_DELAY", "NAS_DELAY", "SECURITY_DELAY", "LATE_AIRCRAFT_DELAY"] from rfl,
      List.filterMap_cons]
    rw [show causeEntry t "CARRIER_DELAY" = some (pyReplace "CARRIER_DELAY" "_DELAY" "",
        ⟨(vs.filter (fun c => cellGt c 0)).length,
         colSum (vs.filter (fun c => cellGt c 0)),
         colMean (vs.filter (fun c => cellGt c 0))⟩) from by
      unfold causeEntry; rw [hvs]; rfl]
    refine ⟨_, ?_, rfl, rfl, hmean _ rfl⟩
    simp [List.lookup]
  · rw [show causeCols = ["CARRIER_DELAY"]
        ++ "WEATHER_DELAY" :: ["NAS_DELAY", "SECURITY_DELAY", "LATE_AIRCRAFT_DELAY"] from rfl,
      List.filterMap_append,
      lookup_append_of_ne (causes_prefix_keys_ne (by decide)),
      List.filterMap_cons]
    rw [show causeEntry t "WEATHER_DELAY" = some (pyReplace "WEATHER_DELAY" "_DELAY" "",
        ⟨(vs.filter (fun c => cellGt c 0)).length,
         colSum (vs.filter (fun c => cellGt c 0)),
         colMean (vs.filter (fun c => cellGt c 0))⟩) from by
      unfold causeEntry; rw [hvs]; rfl]
    refine ⟨_, ?_, rfl, rfl, hmean _ rfl⟩
    simp [List.lookup]
  · rw [show causeCols = ["CARRIER_DELAY", "WEATHER_DELAY"]
        ++ "NAS_DELAY" :: ["SECURITY_DELAY", "LATE_AIRCRAFT_DELAY"] from rfl,
      List.filterMap_append,
      lookup_append_of_ne (causes_prefix_keys_ne (by decide)),
      List.filterMap_cons]
    rw [show causeEntry t "NAS_DELAY" = some (pyReplace "NAS_DELAY" "_DELAY" "",
        ⟨(vs.filter (fun c => cellGt c 0)).length,
         colSum (vs.filter (fun c => cellGt c 0)),
         colMean (vs.filter (fun c => cellGt c 0))⟩) from by
      unfold causeEntry; rw [hvs]; rfl]
    refine ⟨_, ?_, rfl, rfl, hmean _ rfl⟩
    simp [List.lookup]
  · rw [show causeCols = ["CARRIER_DELAY", "WEATHER_DELAY", "NAS_DELAY"]
        ++ "SECURITY_DELAY" :: ["LATE_AIRCRAFT_DELAY"] from rfl,
      List.filterMap_append,
      lookup_append_of_ne (causes_prefix_keys_ne (by decide)),
      List.filterMap_cons]
    rw [show causeEntry t "SECURITY_DELAY" = some (pyReplace "SECURITY_DELAY" "_DELAY" "",
        ⟨(vs.filter (fun c => cellGt c 0)).length,
         colSum (vs.filter (fun c => cellGt c 0)),
         colMean (vs.filter (fun c => cellGt c 0))⟩) from by
      unfold causeEntry; rw [hvs]; rfl]
    refine ⟨_, ?_, rfl, rfl, hmean _ rfl⟩
    simp [List.lookup]
  · rw [show causeCols = ["CARRIER_DELAY", "WEATHER_DELAY", "NAS_DELAY", "SECURITY_DELAY"]
        ++ "LATE_AIRCRAFT_DELAY" :: [] from rfl,
      List.filterMap_append,
      lookup_append_of_ne (causes_prefix_keys_ne (by decide)),
      List.filterMap_cons]
    rw [show causeEntry t "LATE_AIRCRAFT_DELAY"
        = some (pyReplace "LATE_AIRCRAFT_DELAY" "_DELAY" "",
        ⟨(vs.filter (fun c => cellGt c 0)).length,
         colSum (vs.filter (fun c => cellGt c 0)),
         colMean (vs.filter (fun c => cellGt c 0))⟩) from by
      unfold causeEntry; rw [hvs]; rfl]
    refine ⟨_, ?_, rfl, rfl, hmean _ rfl⟩
    simp [List.lookup]

/-- C8 witness: a `WEATHER_DELAY` column [0, 30, 10] reports count 2,
total 40 minutes and mean 20 — the mean over the positive subset, not the
whole-table mean 40/3. -/
theorem c8_delay_causes_witness :
    ∃ cs : CauseStats,
      (get_delay_causes ⟨3, [⟨"WEATHER_DELAY",
          [some (.num 0), some (.num 30), some (.num 10)]⟩]⟩).lookup
        (pyReplace "WEATHER_DELAY" "_DELAY" "") = some cs ∧
      cs.count = 2 ∧ cs.total_minutes = 40 ∧
      cs.avg_minutes = some ((40 : Rat) / 2) := by
  obtain ⟨cs, hlk, hcount, htot, hmean⟩ :=
    c8_delay_causes ⟨3, [⟨"WEATHER_DELAY",
        [some (.num 0), some (.num 30), some (.num 10)]⟩]⟩
      "WEATHER_DELAY"
      [some (.num 0), some (.num 30), some (.num 10)]
      (by decide) (by decide) (by rfl)
  have hfilter : ([some (.num 0), some (.num 30), some (.num 10)] : List Cell).filter
      (fun c => cellGt c 0) = [some (.num 30), some (.num 10)] := by
    norm_num [List.filter, cellGt]
  rw [hfilter] at hcount htot
  have hc2 : cs.count = 2 := by rw [hcount]; rfl
  have ht40 : cs.total_minutes = 40 := by
    rw [htot]
    norm_num [colSum, numsOf, cellNum, List.filterMap]
  refine ⟨cs, hlk, hc2, ht40, ?_⟩
  have hres := hmean (by omega)
  rw [hres, ht40, hc2]
  norm_num

/-! ### Support for idempotence of the cleaning pipeline -/

theorem names_flagPhase_exists (t : Table) :
    ∃ ext, (flagPhase t).names = t.names ++ ext ∧ ∀ x ∈ ext, x = "IS_DELAYED" := by
  unfold flagPhase
  split
  · exact names_setCol_exists t "IS_DELAYED" _
  · exact ⟨[], by simp, by simp⟩

theorem names_clean_structure (t : Table) :
    ∃ ext, (clean_flight_data t).names = t.names.map renName ++ ext ∧
      ∀ x ∈ ext, x ∈ ["MONTH", "DAY_OF_WEEK", "YEAR", "IS_DELAYED"] := by
  obtain ⟨e1, he1, hm1⟩ := names_datePhase_exists (renamePhase t)
  obtain ⟨e2, he2, hm2⟩ := names_flagPhase_exists (fillPhase (datePhase (renamePhase t)))
  refine ⟨e1 ++ e2, ?_, ?_⟩
  · show (flagPhase (fillPhase (datePhase (renamePhase t)))).names = _
    rw [he2]
    rw [show (fillPhase (datePhase (renamePhase t))).names
        = (datePhase (renamePhase t)).names from names_fillFold _ _]
    rw [he1, names_renamePhase, List.append_assoc]
  · intro x hx
    rcases List.mem_append.mp hx with hx | hx
    · have h3 := hm1 x hx
      simp only [List.mem_cons, List.not_mem_nil, or_false] at h3
      rcases h3 with rfl | rfl | rfl <;> simp
    · simp [hm2 x hx]

theorem names_nodup_clean {t : Table} (hnd : (t.names.map renName).Nodup) :
    (clean_flight_data t).names.Nodup := by
  have h1 : (renamePhase t).names.Nodup := by rw [names_renamePhase]; exact hnd
  have h2 := names_nodup_datePhase h1
  have h3 : (fillPhase (datePhase (renamePhase t))).names.Nodup := by
    rw [show (fillPhase (datePhase (renamePhase t))).names
        = (datePhase (renamePhase t)).names from names_fillFold _ _]
    exact h2
  show (flagPhase (fillPhase (datePhase (renamePhase t)))).names.Nodup
  unfold flagPhase
  split
  · exact names_nodup_setCol _ _ h3
  · exact h3

theorem findDateCol_eq_names (t : Table) :
    findDateCol t = if hasCol t "FL_DATE" then some "FL_DATE"
      else t.names.find? lowerHasDate := by
  unfold findDateCol
  split
  · rfl
  · show (t.cols.find? (fun c => lowerHasDate c.name)).map Column.name
      = (t.cols.map Column.name).find? lowerHasDate
    rw [List.find?_map]
    rfl

theorem findDateCol_clean_stable (t : Table) :
    findDateCol (clean_flight_data t) = findDateCol (renamePhase t) := by
  obtain ⟨ext, hn, hext⟩ := names_clean_structure t
  have hbase : (renamePhase t).names = t.names.map renName := names_renamePhase t
  have hextdate : ∀ x ∈ ext, lowerHasDate x = false := by
    intro x hx
    have := hext x hx
    simp only [List.mem_cons, List.not_mem_nil, or_false] at this
    rcases this with rfl | rfl | rfl | rfl <;> decide
  have hextfl : ∀ x ∈ ext, x ≠ "FL_DATE" := by
    intro x hx
    have := hext x hx
    simp only [List.mem_cons, List.not_mem_nil, or_false] at this
    rcases this with rfl | rfl | rfl | rfl <;> decide
  have hhc : hasCol (clean_flight_data t) "FL_DATE" = hasCol (renamePhase t) "FL_DATE" := by
    rw [Bool.eq_iff_iff, hasCol_eq_true_iff, hasCol_eq_true_iff, hn, hbase]
    constructor
    · intro h
      rcases List.mem_append.mp h with h | h
      · exact h
      · exact absurd rfl (hextfl _ h)
    · exact fun h => List.mem_append.mpr (Or.inl h)
  rw [findDateCol_eq_names, findDateCol_eq_names, hhc, hn, hbase]
  split
  · rfl
  · rw [List.find?_append]
    rw [show ext.find? lowerHasDate = none from
      List.find?_eq_none.mpr (fun x hx => by simp [hextdate x hx])]
    cases (t.names.map renName).find? lowerHasDate <;> rfl

theorem getColVals_flagPhase_ne {t : Table} {m : String} (hne : m ≠ "IS_DELAYED") :
    getColVals (flagPhase t) m = getColVals t m := by
  unfold flagPhase
  split
  · exact getColVals_setCol_ne _ _ hne
  · rfl

theorem hasCol_flagPhase_ne {t : Table} {m : String} (hne : m ≠ "IS_DELAYED") :
    hasCol (flagPhase t) m = hasCol t m := by
  unfold flagPhase
  split
  · exact hasCol_setCol_ne _ _ hne
  · rfl

theorem getColVals_fillFold_absent {m : String} :
    ∀ (ms : List String) (t : Table), getColVals t m = none →
      getColVals (ms.foldl fillStep t) m = none
  | [], _, h => h
  | a :: ms, t, h => by
    simp only [List.foldl]
    apply getColVals_fillFold_absent ms
    by_cases ha : a = m
    · subst ha
      unfold fillStep
      split
      · next hh =>
        rcases getColVals_of_hasCol hh with ⟨vs, hvs⟩
        rw [h] at hvs
        exact absurd hvs (by simp)
      · exact h
    · rw [getColVals_fillStep_ne t (fun he => ha he.symm)]
      exact h

theorem map_toDT_idem (vs : List Cell) :
    (vs.map toDatetimeCell).map toDatetimeCell = vs.map toDatetimeCell := by
  rw [List.map_map]
  exact List.map_congr_left (fun c _ => toDatetimeCell_idem c)

theorem map_fillCell_idem (vs : List Cell) :
    (vs.map fillCell).map fillCell = vs.map fillCell := by
  rw [List.map_map]
  exact List.map_congr_left (fun c _ => fillCell_idem c)

theorem renamePhase_eq_self_of_fix {t : Table}
    (h : ∀ c ∈ t.cols, renName c.name = c.name) : renamePhase t = t := by
  rw [renamePhase_eq]
  have hmap : t.cols.map (fun c => (⟨renName c.name, c.values⟩ : Column)) = t.cols := by
    have hcg : ∀ c ∈ t.cols, (⟨renName c.name, c.values⟩ : Column) = c := by
      intro c hc
      rw [h c hc]
    rw [List.map_congr_left hcg]
    simp
  rw [hmap]

theorem renamePhase_clean_eq (t : Table) :
    renamePhase (clean_flight_data t) = clean_flight_data t := by
  apply renamePhase_eq_self_of_fix
  intro c hc
  have hmem : c.name ∈ (clean_flight_data t).names := List.mem_map_of_mem Column.name hc
  obtain ⟨ext, hn, hext⟩ := names_clean_structure t
  rw [hn] at hmem
  rcases List.mem_append.mp hmem with h | h
  · rcases List.mem_map.mp h with ⟨s, -, hs⟩
    rw [← hs]
    exact renName_idem s
  · have hx := hext _ h
    simp only [List.mem_cons, List.not_mem_nil, or_false] at hx
    rcases hx with hx | hx | hx | hx <;> rw [hx] <;> decide

theorem datePhase_of_some {t : Table} {dc : String} (h : findDateCol t = some dc) :
    datePhase t
      = setCol (setCol (setCol (setCol t dc
            (((getColVals t dc).getD []).map toDatetimeCell))
          "MONTH" ((((getColVals t dc).getD []).map toDatetimeCell).map
            (cellDtAttr Dt.month)))
          "DAY_OF_WEEK" ((((getColVals t dc).getD []).map toDatetimeCell).map
            (cellDtAttr dayOfWeek)))
          "YEAR" ((((getColVals t dc).getD []).map toDatetimeCell).map
            (cellDtAttr Dt.year)) := by
  unfold datePhase
  rw [h]

theorem datePhase_clean_eq {t : Table} (hnd : (t.names.map renName).Nodup) :
    datePhase (clean_flight_data t) = clean_flight_data t := by
  have hnodup := names_nodup_clean hnd
  have hstable := findDateCol_clean_stable t
  rcases hfd : findDateCol (renamePhase t) with _ | dc
  · unfold datePhase
    rw [hstable, hfd]
  · obtain ⟨hne_m, hne_d, hne_y, hnotdel, hne_is⟩ := dateCol_not_derived hfd
    have hd_eq := datePhase_of_some hfd
    have g1 : getColVals (datePhase (renamePhase t)) dc
        = some (((getColVals (renamePhase t) dc).getD []).map toDatetimeCell) := by
      rw [hd_eq, getColVals_setCol_ne _ _ hne_y, getColVals_setCol_ne _ _ hne_d,
        getColVals_setCol_ne _ _ hne_m, getColVals_setCol_self]
    have g2 : getColVals (datePhase (renamePhase t)) "MONTH"
        = some ((((getColVals (renamePhase t) dc).getD []).map toDatetimeCell).map
            (cellDtAttr Dt.month)) := by
      rw [hd_eq, getColVals_setCol_ne _ _ (by decide : "MONTH" ≠ "YEAR"),
        getColVals_setCol_ne _ _ (by decide : "MONTH" ≠ "DAY_OF_WEEK"),
        getColVals_setCol_self]
    have g3 : getColVals (datePhase (renamePhase t)) "DAY_OF_WEEK"
        = some ((((getColVals (renamePhase t) dc).getD []).map toDatetimeCell).map
            (cellDtAttr dayOfWeek)) := by
      rw [hd_eq, getColVals_setCol_ne _ _ (by decide : "DAY_OF_WEEK" ≠ "YEAR"),
        getColVals_setCol_self]
    have g4 : getColVals (datePhase (renamePhase t)) "YEAR"
        = some ((((getColVals (renamePhase t) dc).getD []).map toDatetimeCell).map
            (cellDtAttr Dt.year)) := by
      rw [hd_eq, getColVals_setCol_self]
    have hdel_dc : ∀ x ∈ delayCols, dc ≠ x := fun x hx he => hnotdel (he ▸ hx)
    have f1 : getColVals (fillPhase (datePhase (renamePhase t))) dc
        = some (((getColVals (renamePhase t) dc).getD []).map toDatetimeCell) := by
      show getColVals (delayCols.foldl fillStep _) dc = _
      rw [getColVals_fillFold_not_mem delayCols _ hdel_dc]
      exact g1
    have f2 : getColVals (fillPhase (datePhase (renamePhase t))) "MONTH"
        = some ((((getColVals (renamePhase t) dc).getD []).map toDatetimeCell).map
            (cellDtAttr Dt.month)) := by
      show getColVals (delayCols.foldl fillStep _) "MONTH" = _
      rw [getColVals_fillFold_not_mem delayCols _ (by decide)]
      exact g2
    have f3 : getColVals (fillPhase (datePhase (renamePhase t))) "DAY_OF_WEEK"
        = some ((((getColVals (renamePhase t) dc).getD []).map toDatetimeCell).map
            (cellDtAttr dayOfWeek)) := by
      show getColVals (delayCols.foldl fillStep _) "DAY_OF_WEEK" = _
      rw [getColVals_fillFold_not_mem delayCols _ (by decide)]
      exact g3
    have f4 : getColVals (fillPhase (datePhase (renamePhase t))) "YEAR"
        = some ((((getColVals (renamePhase t) dc).getD []).map toDatetimeCell).map
            (cellDtAttr Dt.year)) := by
      show getColVals (delayCols.foldl fillStep _) "YEAR" = _
      rw [getColVals_fillFold_not_mem delayCols _ (by decide)]
      exact g4
    have u1 : getColVals (clean_flight_data t) dc
        = some (((getColVals (renamePhase t) dc).getD []).map toDatetimeCell) := by
      show getColVals (flagPhase (fillPhase (datePhase (renamePhase t)))) dc = _
      rw [getColVals_flagPhase_ne hne_is]
      exact f1
    have u2 : getColVals (clean_flight_data t) "MONTH"
        = some ((((getColVals (renamePhase t) dc).getD []).map toDatetimeCell).map
            (cellDtAttr Dt.month)) := by
      show getColVals (flagPhase (fillPhase (datePhase (renamePhase t)))) "MONTH" = _
      rw [getColVals_flagPhase_ne (by decide)]
      exact f2
    have u3 : getColVals (clean_flight_data t) "DAY_OF_WEEK"
        = some ((((getColVals (renamePhase t) dc).getD []).map toDatetimeCell).map
            (cellDtAttr dayOfWeek)) := by
      show getColVals (flagPhase (fillPhase (datePhase (renamePhase t)))) "DAY_OF_WEEK" = _
      rw [getColVals_flagPhase_ne (by decide)]
      exact f3
    have u4 : getColVals (clean_flight_data t) "YEAR"
        = some ((((getColVals (renamePhase t) dc).getD []).map toDatetimeCell).map
            (cellDtAttr Dt.year)) := by
      show getColVals (flagPhase (fillPhase (datePhase (renamePhase t)))) "YEAR" = _
      rw [getColVals_flagPhase_ne (by decide)]
      exact f4
    have hfdu : findDateCol (clean_flight_data t) = some dc := by rw [hstable, hfd]
    have hdvu : ((getColVals (clean_flight_data t) dc).getD []).map toDatetimeCell
        = ((getColVals (renamePhase t) dc).getD []).map toDatetimeCell := by
      rw [u1]
      simp only [Option.getD_some]
      exact map_toDT_idem _
    rw [datePhase_of_some hfdu, hdvu, setCol_eq_self hnodup u1, setCol_eq_self hnodup u2,
      setCol_eq_self hnodup u3, setCol_eq_self hnodup u4]

theorem fillPhase_clean_eq {t : Table} (hnd : (t.names.map renName).Nodup) :
    fillPhase (clean_flight_data t) = clean_flight_data t := by
  have hnodup := names_nodup_clean hnd
  show delayCols.foldl fillStep (clean_flight_data t) = clean_flight_data t
  apply fillFold_eq_self delayCols _ hnodup
  intro m hm vs hvs
  have hmis : m ≠ "IS_DELAYED" := by
    have hall : ∀ x ∈ delayCols, x ≠ "IS_DELAYED" := by decide
    exact hall m hm
  have h1 : getColVals (fillPhase (datePhase (renamePhase t))) m = some vs := by
    have h2 := hvs
    rwa [show clean_flight_data t
        = flagPhase (fillPhase (datePhase (renamePhase t))) from rfl,
      getColVals_flagPhase_ne hmis] at h2
  rcases hws : getColVals (datePhase (renamePhase t)) m with _ | ws
  · have h3 : getColVals (fillPhase (datePhase (renamePhase t))) m = none :=
      getColVals_fillFold_absent delayCols _ hws
    rw [h1] at h3
    exact absurd h3 (by simp)
  · have h3 : getColVals (fillPhase (datePhase (renamePhase t))) m
        = some (ws.map fillCell) :=
      getColVals_fillFold_mem delayCols _ (by decide) hm hws
    have hv : vs = ws.map fillCell := by
      have := h1.symm.trans h3
      exact Option.some.inj this
    rw [hv]
    exact map_fillCell_idem ws

theorem flagPhase_clean_eq {t : Table} (hnd : (t.names.map renName).Nodup) :
    flagPhase (clean_flight_data t) = clean_flight_data t := by
  have hnodup := names_nodup_clean hnd
  rcases hA : hasCol (clean_flight_data t) "ARR_DELAY" with _ | _
  · unfold flagPhase
    rw [hA]
    simp
  · have hfA : hasCol (fillPhase (datePhase (renamePhase t))) "ARR_DELAY" = true := by
      have h2 := hA
      rwa [show clean_flight_data t
          = flagPhase (fillPhase (datePhase (renamePhase t))) from rfl,
        hasCol_flagPhase_ne (by decide)] at h2
    obtain ⟨fv, hfv⟩ := getColVals_of_hasCol hfA
    have hu_eq : clean_flight_data t
        = setCol (fillPhase (datePhase (renamePhase t))) "IS_DELAYED"
            (fv.map flagCell) := by
      show flagPhase _ = _
      unfold flagPhase
      simp only [hfA, if_true, hfv, Option.getD_some]
    have hIS : getColVals (clean_flight_data t) "IS_DELAYED" = some (fv.map flagCell) := by
      rw [hu_eq]
      exact getColVals_setCol_self _ _ _
    have hARR : getColVals (clean_flight_data t) "ARR_DELAY" = some fv := by
      rw [hu_eq, getColVals_setCol_ne _ _ (by decide)]
      exact hfv
    unfold flagPhase
    simp only [hA, if_true, hARR, Option.getD_some]
    exact setCol_eq_self hnodup hIS

/-- C9.  Cleaning is idempotent: running `clean_flight_data` on an already
cleaned table changes nothing — same columns, same values (for inputs whose
canonicalized labels are distinct; on duplicate labels the pandas column
accesses inside the function raise instead). -/
theorem c9_clean_idempotent (t : Table)
    (hnd : (t.names.map renName).Nodup) :
    clean_flight_data (clean_flight_data t) = clean_flight_data t := by
  show flagPhase (fillPhase (datePhase (renamePhase (clean_flight_data t))))
    = clean_flight_data t
  rw [renamePhase_clean_eq, datePhase_clean_eq hnd, fillPhase_clean_eq hnd,
    flagPhase_clean_eq hnd]

/-- C9 witness: a one-row table with a date synonym and an arrival-delay
synonym is a fixed point of the second cleaning pass. -/
theorem c9_clean_idempotent_witness :
    clean_flight_data (clean_flight_data
        ⟨1, [⟨"FlightDate", [some (.str "2020-01-15")]⟩, ⟨"ArrDelay", [some (.num 20)]⟩]⟩)
      = clean_flight_data
        ⟨1, [⟨"FlightDate", [some (.str "2020-01-15")]⟩, ⟨"ArrDelay", [some (.num 20)]⟩]⟩ :=
  c9_clean_idempotent
    ⟨1, [⟨"FlightDate", [some (.str "2020-01-15")]⟩, ⟨"ArrDelay", [some (.num 20)]⟩]⟩
    (by decide)

end FlightDelay
